import Mathlib

/-!
# A verification of the trip-planning engine (`src/lib/tripEngine.ts`)

This file is a shallow embedding of the trip-construction and selection engine
`generateTrips` of `src/lib/tripEngine.ts`, together with the helper functions
it uses (`estimateDriveMinutes`, `estimateFlightHours`, `getWeekNumber`,
`isSunday`, `isDateAllowed`, `getDatesInRange`, `getTripWindow`,
`scoreTripCandidate`, `coordKey`), and proofs of the specification's testable
properties about it.

Modelling conventions:

* JavaScript numbers are modelled as rationals (`ℚ`); values the source keeps
  integral (drive minutes, scores, day counts) are modelled as `ℤ`.
  `Math.round` is modelled by `round : ℚ → ℤ`, which agrees with JavaScript's
  `Math.round` (both are `⌊x + 1/2⌋`).
* ISO date strings `YYYY-MM-DD` are modelled as `ℤ` days since 1970-01-01.
  Lexicographic comparison of ISO date strings coincides with the integer
  order, `new Date(s + 'T12:00:00Z').getUTCDay()` is `(d + 4) % 7`, and the
  `getWeekNumber` computation is reproduced through proleptic-Gregorian
  calendar arithmetic (the calendar used by JavaScript `Date` in UTC).
* `haversineKm` computes a great-circle distance with floating-point
  trigonometry.  The whole development is parameterised by that function
  (`hv : Coordinates → Coordinates → ℚ`): every theorem below holds for every
  distance function, and concrete runs instantiate it explicitly.
  `estimateDriveMinutes` is defined from `hv` exactly as in the source.
* JavaScript `Set`s are modelled as duplicate-free lists in insertion order
  (`jsSetOfList` / `jsSetInsert`), and `Map`s as association lists in
  insertion order.
* `Array.prototype.sort(cmp)` is a stable sort (ES2019); it is modelled by
  `List.insertionSort r` with `r a b` the proposition "`cmp` does not order
  `b` strictly before `a`", which is the unique stable sort for `cmp`.
* In the source, the greedy phase rescores candidate objects *in place*, so
  the `visitValue`/`totalPlayersVisited` fields of already-returned priority
  trips are overwritten by later rescoring rounds through aliasing.  The
  embedding returns each accepted trip as the record it was at acceptance
  time.  All fields the theorems below mention (`anchorGame`, `nearbyGames`,
  `suggestedDays`, `driveFromHomeMinutes`, player-name lists, acceptance
  order) are never mutated after construction in the source, so the two
  presentations agree on every stated property.
* Record fields of `GameEvent`/`RosterPlayer` that `generateTrips` and its
  helpers never read (`time`, `homeTeam`, `awayTeam`, `dayOfWeek`, `sportId`,
  `confidence`, `confidenceNote`, `gameStatus`, and the roster contact
  fields) are omitted from the embedded records.
-/

namespace TripEngine

/- The Batteries rational-number operations are `@[irreducible]`; re-allow
unfolding them locally so that concrete runs of the engine can be evaluated
inside proofs by `decide`. -/
attribute [local semireducible] Rat.mul Rat.add Rat.sub Rat.inv Rat.ofScientific

/-- `Coordinates` from `src/types/roster.ts`: a latitude/longitude pair. -/
structure Coordinates where
  lat : ℚ
  lng : ℚ
deriving DecidableEq, Repr, Inhabited

/-- `ScheduleSource` from `src/types/schedule.ts`. -/
inductive ScheduleSource where
  | mlbApi
  | ncaaLookup
  | hsLookup
deriving DecidableEq, Repr, Inhabited

/-- A venue: name plus coordinates (the `venue` field of `GameEvent`). -/
structure Venue where
  name : String
  coords : Coordinates
deriving DecidableEq, Repr, Inhabited

/-- `GameEvent` from `src/types/schedule.ts`, restricted to the fields read by
`generateTrips`.  `date` is an ISO date modelled as days since 1970-01-01. -/
structure GameEvent where
  id : String
  date : ℤ
  venue : Venue
  isHome : Bool
  source : ScheduleSource
  playerNames : List String
  sourceUrl : Option String
deriving DecidableEq, Repr, Inhabited

/-- `RosterPlayer` from `src/types/roster.ts`, restricted to the fields read
by `generateTrips` (`playerName`, `tier`, `visitsRemaining`). -/
structure RosterPlayer where
  playerName : String
  tier : ℤ
  visitsRemaining : ℤ
deriving DecidableEq, Repr

/-- An element of a `TripCandidate`'s `nearbyGames` array:
`GameEvent & { driveMinutes: number }`. -/
structure NearbyGame where
  game : GameEvent
  driveMinutes : ℤ
deriving DecidableEq, Repr, Inhabited

/-- `TripCandidate` from `src/types/schedule.ts` (without the optional
`scoreBreakdown`, which `generateTrips` never sets). -/
structure TripCandidate where
  anchorGame : GameEvent
  nearbyGames : List NearbyGame
  suggestedDays : List ℤ
  totalPlayersVisited : ℤ
  visitValue : ℤ
  driveFromHomeMinutes : ℤ
  totalDriveMinutes : ℤ
  venueCount : ℤ
deriving DecidableEq, Repr, Inhabited

/-- The status field of a `PriorityResult`. -/
inductive PriorityStatus where
  | included
  | separateTrip
  | unreachable
deriving DecidableEq, Repr

/-- `PriorityResult` from `src/types/schedule.ts`. -/
structure PriorityResult where
  playerName : String
  status : PriorityStatus
  reason : Option String
deriving DecidableEq, Repr

/-- `FlyInVisit` from `src/types/schedule.ts`. -/
structure FlyInVisit where
  playerNames : List String
  venue : Venue
  dates : List ℤ
  distanceKm : ℤ
  estimatedTravelHours : ℚ
  source : ScheduleSource
  isHome : Bool
  sourceUrl : Option String
deriving DecidableEq, Repr

/-- `TripPlan` from `src/types/schedule.ts` (the fields `generateTrips`
returns; `priorityResults` is `none` when the source leaves it `undefined`). -/
structure TripPlan where
  trips : List TripCandidate
  flyInVisits : List FlyInVisit
  unvisitablePlayers : List String
  totalPlayersWithVisits : ℤ
  totalVisitsCovered : ℤ
  coveragePercent : ℤ
  priorityResults : Option (List PriorityResult)
deriving DecidableEq, Repr

/-! ## JavaScript `Set` / `Map` models -/

/-- Adding an element to a JavaScript `Set`: appended at the end when absent,
no effect when present (iteration order is insertion order). -/
def jsSetInsert [DecidableEq α] (l : List α) (a : α) : List α :=
  if a ∈ l then l else l ++ [a]

/-- `new Set(list)` seen as a duplicate-free list in insertion order. -/
def jsSetOfList [DecidableEq α] (l : List α) : List α :=
  l.foldl jsSetInsert []

/-- `Map.get`: the value under the given key, for an insertion-ordered
association list. -/
def mapLookup [DecidableEq κ] (m : List (κ × β)) (k : κ) : Option β :=
  (m.find? fun e => decide (e.1 = k)).map (·.2)

/-! ## Constants (`tripEngine.ts` lines 10-20) -/

/-- `HOME_BASE`: Orlando, FL. -/
def HOME_BASE : Coordinates := ⟨28.5383, -81.3792⟩

/-- `MAX_DRIVE_MINUTES`: the default 3-hour one-way radius. -/
def MAX_DRIVE_MINUTES : ℤ := 180

/-- `ANCHOR_DAY`: Thursday (0 = Sunday, 4 = Thursday). -/
def ANCHOR_DAY : ℤ := 4

/-- `TIER_WEIGHTS` with the `?? 0` default applied at the lookup site of
`scoreTripCandidate`. -/
def tierWeight (tier : ℤ) : ℤ :=
  if tier = 1 then 5
  else if tier = 2 then 3
  else if tier = 3 then 1
  else if tier = 4 then 0
  else 0

/-- `TIER_VISIT_TARGETS` from `src/types/roster.ts`, with the `?? 0` default
applied at the lookup site in `generateTrips`. -/
def tierVisitTarget (tier : ℤ) : ℤ :=
  if tier = 1 then 5
  else if tier = 2 then 3
  else if tier = 3 then 1
  else if tier = 4 then 0
  else 0

/-! ## Distance estimators (`tripEngine.ts` lines 22-48) -/

/-- `estimateDriveMinutes` (lines 37-40): `Math.round((km * 1.3 / 90) * 60)`
where `km = haversineKm a b`; parameterised by the haversine function `hv`. -/
def estimateDriveMinutes (hv : Coordinates → Coordinates → ℚ) (a b : Coordinates) : ℤ :=
  round (hv a b * 1.3 / 90 * 60)

/-- `estimateFlightHours` (lines 44-48):
`Math.round((distanceKm / 800 + 3) * 10) / 10`. -/
def estimateFlightHours (distanceKm : ℚ) : ℚ :=
  (round ((distanceKm / 800 + 3) * 10) : ℚ) / 10

/-! ## Calendar utilities (`tripEngine.ts` lines 50-93)

JavaScript `Date`s at `T12:00:00Z` are functions of the epoch-day number; the
proleptic-Gregorian conversions below reproduce `getUTCFullYear` and
`Date.UTC(year, 0, 1)` for the week-number computation. -/

/-- Days from 1970-01-01 to the proleptic-Gregorian date `(y, m, d)`
(the inverse of JavaScript `Date`'s UTC calendar). -/
def daysFromCivil (y m d : ℤ) : ℤ :=
  let y2 : ℤ := if m ≤ 2 then y - 1 else y
  let era : ℤ := Int.fdiv y2 400
  let yoe : ℤ := y2 - era * 400
  let mp : ℤ := if 2 < m then m - 3 else m + 9
  let doy : ℤ := (153 * mp + 2) / 5 + d - 1
  let doe : ℤ := yoe * 365 + yoe / 4 - yoe / 100 + doy
  era * 146097 + doe - 719468

/-- The Gregorian year containing epoch day `z` (JavaScript
`getUTCFullYear`). -/
def civilYear (z : ℤ) : ℤ :=
  let z2 : ℤ := z + 719468
  let era : ℤ := Int.fdiv z2 146097
  let doe : ℤ := z2 - era * 146097
  let yoe : ℤ := (doe - doe / 1460 + doe / 36524 - doe / 146096) / 365
  let y : ℤ := yoe + era * 400
  let doy : ℤ := doe - (365 * yoe + yoe / 4 - yoe / 100)
  let mp : ℤ := (5 * doy + 2) / 153
  let m : ℤ := if mp < 10 then mp + 3 else mp - 9
  if m ≤ 2 then y + 1 else y

/-- `getWeekNumber` (lines 51-55): for a date at `T12:00:00Z`,
`Math.floor((time - time(Jan 1)) / weekMs)` equals the day-of-year index
divided by 7 (the extra half day never crosses a multiple of 7). -/
def getWeekNumber (d : ℤ) : ℤ :=
  (d - daysFromCivil (civilYear d) 1 1) / 7

/-- `getUTCDay` of a date at noon UTC: 1970-01-01 was a Thursday (4). -/
def getUTCDay (d : ℤ) : ℤ :=
  (d + 4) % 7

/-- `isSunday` (lines 58-61). -/
def isSunday (d : ℤ) : Bool :=
  getUTCDay d == 0

/-- `isDateAllowed` (lines 64-66): not Sunday. -/
def isDateAllowed (d : ℤ) : Bool :=
  !isSunday d

/-- `getDatesInRange` (lines 69-79): all dates from `start` through `end`,
inclusive; empty when `end < start`. -/
def getDatesInRange (start stop : ℤ) : List ℤ :=
  (List.range (stop + 1 - start).toNat).map fun i => start + i

/-- `getTripWindow` (lines 82-93): day before the anchor through two days
after, Sundays excluded. -/
def getTripWindow (anchorDate : ℤ) : List ℤ :=
  (getDatesInRange (anchorDate - 1) (anchorDate + 2)).filter isDateAllowed

/-! ## Scoring (`tripEngine.ts` lines 96-108) -/

/-- The `playerMap` built at the top of `generateTrips`: later entries with
the same `playerName` overwrite earlier ones. -/
def mkPlayerMap (players : List RosterPlayer) : String → Option RosterPlayer :=
  fun n => players.foldl (fun acc p => if p.playerName = n then some p else acc) none

/-- `scoreTripCandidate` (lines 96-108): sum of
`TIER_WEIGHTS[tier] * visitsRemaining` over the players found in the map. -/
def scoreTripCandidate (playerNames : List String)
    (playerMap : String → Option RosterPlayer) : ℤ :=
  playerNames.foldl
    (fun score name =>
      match playerMap name with
      | none => score
      | some p => score + tierWeight p.tier * p.visitsRemaining)
    0

/-! ## Coordinate keys (`tripEngine.ts` lines 326-329) -/

/-- `coordKey` (lines 327-329): deduplication key from coordinates rounded to
four decimal places (`toFixed(4)`); modelled as the pair of numerators after
rounding at `10^4`. -/
def coordKey (c : Coordinates) : ℤ × ℤ :=
  (round (c.lat * 10000), round (c.lng * 10000))

/-- Abbreviation for the rounded-coordinate deduplication key. -/
abbrev CoordKey := ℤ × ℤ

/-! ## `generateTrips` (`tripEngine.ts` lines 332-702)

The body of `generateTrips` is decomposed into one Lean definition per
source block, in source order, all finally assembled in `generateTrips`. -/

section Engine

variable (hv : Coordinates → Coordinates → ℚ)

/-- Lines 349-352: the set of names of players with `visitsRemaining > 0`,
in roster order. -/
def eligiblePlayers (players : List RosterPlayer) : List String :=
  jsSetOfList ((players.filter fun p => decide (0 < p.visitsRemaining)).map (·.playerName))

/-- Lines 354-361: games on allowed dates, inside the date range, having at
least one eligible player. -/
def eligibleGames (games : List GameEvent) (players : List RosterPlayer)
    (startDate endDate : ℤ) : List GameEvent :=
  games.filter fun g =>
    isDateAllowed g.date && decide (startDate ≤ g.date) && decide (g.date ≤ endDate) &&
      g.playerNames.any fun n => decide (n ∈ eligiblePlayers players)

/-- Lines 374-382: the memoised home-to-venue drive times, keyed by rounded
coordinates, skipping the `(0, 0)` sentinel. -/
def buildHomeToVenue (eligGames : List GameEvent) : List (CoordKey × ℤ) :=
  eligGames.foldl
    (fun m g =>
      if g.venue.coords.lat = 0 ∧ g.venue.coords.lng = 0 then m
      else
        let key := coordKey g.venue.coords
        if (mapLookup m key).isSome then m
        else m ++ [(key, estimateDriveMinutes hv HOME_BASE g.venue.coords)])
    []

/-- The inline array `[...c.anchorGame.playerNames,
...c.nearbyGames.flatMap(g => g.playerNames)]` used at lines 493-497,
506-509 and 590-594. -/
def candPlayerList (c : TripCandidate) : List String :=
  c.anchorGame.playerNames ++ c.nearbyGames.flatMap fun g => g.game.playerNames

/-- Lines 422-435: the solo candidate emitted when the trip window holds no
other eligible game. -/
def soloCandidate (eligSet : List String) (playerMap : String → Option RosterPlayer)
    (anchor : GameEvent) (homeToAnchor : ℤ) : TripCandidate :=
  let visitedPlayersList := anchor.playerNames.filter fun n => decide (n ∈ eligSet)
  { anchorGame := anchor
    nearbyGames := []
    suggestedDays := [anchor.date]
    totalPlayersVisited := visitedPlayersList.length
    visitValue := scoreTripCandidate visitedPlayersList playerMap
    driveFromHomeMinutes := homeToAnchor
    totalDriveMinutes := homeToAnchor * 2
    venueCount := 1 }

/-- Lines 438-441: window games annotated with the drive time from the anchor
venue, kept when `0 ≤ driveMinutes ≤ maxDriveMinutes`. -/
def nearbyGamesOf (maxDriveMinutes : ℤ) (anchor : GameEvent)
    (windowGames : List GameEvent) : List NearbyGame :=
  (windowGames.map fun g =>
      NearbyGame.mk g (estimateDriveMinutes hv anchor.venue.coords g.venue.coords)).filter
    fun g => decide (g.driveMinutes ≤ maxDriveMinutes) && decide (0 ≤ g.driveMinutes)

/-- Lines 443-452: the deduplicated eligible player names across the anchor
and the kept nearby games, in insertion order. -/
def allPlayerNamesOf (eligSet : List String) (anchor : GameEvent)
    (nearbyGames : List NearbyGame) : List String :=
  jsSetOfList
    ((anchor.playerNames ++ nearbyGames.flatMap fun g => g.game.playerNames).filter
      fun n => decide (n ∈ eligSet))

/-- Lines 438-477: the candidate emitted for an anchor whose trip window holds
at least one other eligible game. -/
def windowCandidate (eligSet : List String) (playerMap : String → Option RosterPlayer)
    (homeToVenue : List (CoordKey × ℤ)) (maxDriveMinutes : ℤ) (anchor : GameEvent)
    (anchorDay homeToAnchor : ℤ) (windowGames : List GameEvent) : TripCandidate :=
  let anchorKey := coordKey anchor.venue.coords
  let nearbyGames := nearbyGamesOf hv maxDriveMinutes anchor windowGames
  let allPlayerNames := allPlayerNamesOf eligSet anchor nearbyGames
  let suggestedDays :=
    (jsSetOfList (anchor.date :: nearbyGames.map fun g => g.game.date)).insertionSort (· ≤ ·)
  let interVenueDrive := nearbyGames.foldl (fun s g => s + g.driveMinutes) 0
  let lastVenueKey :=
    match nearbyGames.getLast? with
    | some g => coordKey g.game.venue.coords
    | none => anchorKey
  let returnHome := (mapLookup homeToVenue lastVenueKey).getD homeToAnchor
  let totalDrive := homeToAnchor + interVenueDrive + returnHome
  let dayOfWeek := getUTCDay anchorDay
  let thursdayBonus : ℚ := if dayOfWeek = ANCHOR_DAY then 1.2 else 1.0
  { anchorGame := anchor
    nearbyGames := nearbyGames
    suggestedDays := suggestedDays
    totalPlayersVisited := allPlayerNames.length
    visitValue := round ((scoreTripCandidate allPlayerNames playerMap : ℚ) * thursdayBonus)
    driveFromHomeMinutes := homeToAnchor
    totalDriveMinutes := totalDrive
    venueCount := 1 + (jsSetOfList (nearbyGames.map fun g => coordKey g.game.venue.coords)).length }

/-- Lines 413-420: the other eligible games inside the anchor's trip window,
excluding the anchor itself and sentinel coordinates. -/
def windowGamesOf (eligGames : List GameEvent) (anchor : GameEvent) (anchorDay : ℤ) :
    List GameEvent :=
  eligGames.filter fun g =>
    decide (g.date ∈ getTripWindow anchorDay) && !decide (g.id = anchor.id) &&
      !decide (g.venue.coords.lat = 0) && !decide (g.venue.coords.lng = 0)

/-- Lines 398-478: handling of one anchor game on one anchor day, threading
the `seenVenueWeeks` set and the accumulated candidate list. -/
def processAnchor (eligGames : List GameEvent) (eligSet : List String)
    (playerMap : String → Option RosterPlayer) (homeToVenue : List (CoordKey × ℤ))
    (maxDriveMinutes : ℤ) (anchorDay : ℤ)
    (st : List (CoordKey × ℤ) × List TripCandidate) (anchor : GameEvent) :
    List (CoordKey × ℤ) × List TripCandidate :=
  if anchor.venue.coords.lat = 0 ∧ anchor.venue.coords.lng = 0 then st
  else
    match mapLookup homeToVenue (coordKey anchor.venue.coords) with
    | none => st
    | some homeToAnchor =>
      if maxDriveMinutes < homeToAnchor then st
      else if (coordKey anchor.venue.coords, getWeekNumber anchorDay) ∈ st.1 then st
      else if (windowGamesOf eligGames anchor anchorDay).isEmpty then
        (st.1 ++ [(coordKey anchor.venue.coords, getWeekNumber anchorDay)],
         st.2 ++ [soloCandidate eligSet playerMap anchor homeToAnchor])
      else
        (st.1 ++ [(coordKey anchor.venue.coords, getWeekNumber anchorDay)],
         st.2 ++ [windowCandidate hv eligSet playerMap homeToVenue maxDriveMinutes
           anchor anchorDay homeToAnchor (windowGamesOf eligGames anchor anchorDay)])

/-- Lines 387-479: the full candidate-building double loop over anchor days
and that day's eligible games. -/
def buildCandidates (eligGames : List GameEvent) (eligSet : List String)
    (playerMap : String → Option RosterPlayer) (homeToVenue : List (CoordKey × ℤ))
    (maxDriveMinutes : ℤ) (anchorDays : List ℤ) : List TripCandidate :=
  (anchorDays.foldl
    (fun st anchorDay =>
      (eligGames.filter fun g => decide (g.date = anchorDay)).foldl
        (processAnchor hv eligGames eligSet playerMap homeToVenue maxDriveMinutes anchorDay)
        st)
    ([], [])).2

/-- The comparator `(a, b) => b.visitValue - a.visitValue` used on candidate
arrays: `a` may stay before `b` iff `b.visitValue ≤ a.visitValue`. -/
def byVisitValueDesc (a b : TripCandidate) : Prop :=
  b.visitValue ≤ a.visitValue

instance : DecidableRel byVisitValueDesc := fun a b =>
  inferInstanceAs (Decidable (b.visitValue ≤ a.visitValue))

instance : IsTotal TripCandidate byVisitValueDesc :=
  ⟨fun a b => le_total b.visitValue a.visitValue⟩

instance : IsTrans TripCandidate byVisitValueDesc :=
  ⟨fun _ _ _ h1 h2 => le_trans h2 h1⟩

/-- Lines 492-500: the candidates whose combined player-name array contains
the given name. -/
def candidatesWithPlayer (candidates : List TripCandidate) (name : String) :
    List TripCandidate :=
  candidates.filter fun c => decide (name ∈ candPlayerList c)

/-- Lines 519-525 / 537-544 / 566-572 / 609-616: add the eligible players of
an accepted trip to the `visitedPlayers` set. -/
def markVisited (eligSet visited : List String) (c : TripCandidate) : List String :=
  (candPlayerList c).foldl (fun v n => if n ∈ eligSet then jsSetInsert v n else v) visited

/-- Line 548: the reason recorded on each `separate-trip` result. -/
def priorityReasonSeparate (p1 p2 : String) : String :=
  "No trip covers both " ++ p1 ++ " and " ++ p2 ++
    " within the drive radius — created separate trips"

/-- Lines 554 and 579: the reason recorded on each `unreachable` result. -/
def priorityReasonUnreachable (p : String) : String :=
  "No reachable games for " ++ p ++ " in the selected date range"

/-- Lines 483-583: the priority-player phase.  Returns the priority results,
the trips it accepted (in order) and the resulting `visitedPlayers` set. -/
def priorityPhase (eligSet : List String) (candidates : List TripCandidate)
    (priorityPlayers : List String) :
    List PriorityResult × List TripCandidate × List String :=
  match priorityPlayers with
  | [p1, p2] =>
    match List.insertionSort byVisitValueDesc (candidates.filter fun c =>
      decide (p1 ∈ candPlayerList c) && decide (p2 ∈ candPlayerList c)) with
    | best :: _ =>
      ([⟨p1, .included, none⟩, ⟨p2, .included, none⟩], [best], markVisited eligSet [] best)
    | [] =>
      [p1, p2].foldl
        (fun st pName =>
          match List.insertionSort byVisitValueDesc (candidatesWithPlayer candidates pName) with
          | best :: _ =>
            (st.1 ++ [⟨pName, .separateTrip, some (priorityReasonSeparate p1 p2)⟩],
             st.2.1 ++ [best], markVisited eligSet st.2.2 best)
          | [] =>
            (st.1 ++ [⟨pName, .unreachable, some (priorityReasonUnreachable pName)⟩],
             st.2.1, st.2.2))
        ([], [], [])
  | [p1] =>
    match List.insertionSort byVisitValueDesc (candidatesWithPlayer candidates p1) with
    | best :: _ =>
      ([⟨p1, .included, none⟩], [best], markVisited eligSet [] best)
    | [] =>
      ([⟨p1, .unreachable, some (priorityReasonUnreachable p1)⟩], [], [])
  | _ => ([], [], [])

/-- Lines 589-598: recompute a candidate's score and player count over the
eligible players not yet visited. -/
def rescore (eligSet : List String) (playerMap : String → Option RosterPlayer)
    (visited : List String) (c : TripCandidate) : TripCandidate :=
  let remainingPlayerNames := (candPlayerList c).filter fun n =>
    decide (n ∈ eligSet) && !decide (n ∈ visited)
  { c with
    visitValue := scoreTripCandidate (jsSetOfList remainingPlayerNames) playerMap
    totalPlayersVisited := (jsSetOfList remainingPlayerNames).length }

/-- Lines 588-620: the greedy covering loop.  Each iteration rescores the
remaining candidates, stable-sorts them by descending `visitValue`, stops
if the best score is zero, and otherwise accepts the best, marks its
eligible players visited and drops it from the pool.  The pool shrinks by
one per iteration, so any `fuel ≥` pool length makes the fuel bound
unreachable; `greedySelect` passes the pool length. -/
def greedyLoop (eligSet : List String) (playerMap : String → Option RosterPlayer) :
    ℕ → List TripCandidate → List String → List TripCandidate × List String
  | 0, _, visited => ([], visited)
  | fuel + 1, cands, visited =>
    match List.insertionSort byVisitValueDesc (cands.map (rescore eligSet playerMap visited)) with
    | [] => ([], visited)
    | best :: rest =>
      if best.visitValue = 0 then ([], visited)
      else
        let out := greedyLoop eligSet playerMap fuel rest (markVisited eligSet visited best)
        (best :: out.1, out.2)

/-- Line 586 plus the loop: the greedy phase run on the initially sorted copy
of the candidate list. -/
def greedySelect (eligSet : List String) (playerMap : String → Option RosterPlayer)
    (candidates : List TripCandidate) (visited : List String) :
    List TripCandidate × List String :=
  greedyLoop eligSet playerMap candidates.length
    (List.insertionSort byVisitValueDesc candidates) visited

/-- The values of the `flyInVenueMap` (lines 630-638). -/
structure FlyInEntry where
  venue : Venue
  players : List String
  dates : List ℤ
  source : ScheduleSource
  isHome : Bool
  distanceKm : ℚ
  sourceUrl : Option String
deriving DecidableEq, Repr

/-- Lines 642 and 648: the players of one game still lacking road-trip
coverage. -/
def relevantPlayersOf (pNORT : List String) (game : GameEvent) : List String :=
  game.playerNames.filter fun n => decide (n ∈ pNORT)

/-- Lines 640-662: merge one eligible game into the fly-in venue map. -/
def flyInAddGame (pNORT : List String) (m : List (CoordKey × FlyInEntry))
    (game : GameEvent) : List (CoordKey × FlyInEntry) :=
  if game.venue.coords.lat = 0 ∧ game.venue.coords.lng = 0 then m
  else if (relevantPlayersOf pNORT game).isEmpty then m
  else
    match mapLookup m (coordKey game.venue.coords) with
    | some _ =>
      m.map fun e =>
        if e.1 = coordKey game.venue.coords then
          (e.1, { e.2 with
                  players := (relevantPlayersOf pNORT game).foldl jsSetInsert e.2.players
                  dates := jsSetInsert e.2.dates game.date })
        else e
    | none =>
      m ++ [(coordKey game.venue.coords,
        ⟨game.venue, jsSetOfList (relevantPlayersOf pNORT game), [game.date], game.source,
          game.isHome, hv HOME_BASE game.venue.coords, game.sourceUrl⟩)]

/-- Lines 629-662: the venue-grouped remaining events of players not covered
by road trips. -/
def buildFlyInVenueMap (eligGames : List GameEvent) (pNORT : List String) :
    List (CoordKey × FlyInEntry) :=
  eligGames.foldl (flyInAddGame hv pNORT) []

/-- Lines 664-682: convert the venue map to `FlyInVisit` records (beyond-range
venues only), also accumulating the `flyInCovered` set. -/
def flyInConvert (maxDriveMinutes : ℤ) (m : List (CoordKey × FlyInEntry)) :
    List FlyInVisit × List String :=
  m.foldl
    (fun acc e =>
      let entry := e.2
      let driveMinutes := estimateDriveMinutes hv HOME_BASE entry.venue.coords
      if driveMinutes ≤ maxDriveMinutes then acc
      else
        (acc.1 ++ [⟨entry.players, entry.venue, entry.dates.insertionSort (· ≤ ·),
            round entry.distanceKm, estimateFlightHours entry.distanceKm, entry.source,
            entry.isHome, entry.sourceUrl⟩],
         entry.players.foldl jsSetInsert acc.2))
    ([], [])

/-- The comparator `(a, b) => b.playerNames.length - a.playerNames.length`
used at line 685. -/
def byPlayerCountDesc (a b : FlyInVisit) : Prop :=
  b.playerNames.length ≤ a.playerNames.length

instance : DecidableRel byPlayerCountDesc := fun a b =>
  inferInstanceAs (Decidable (b.playerNames.length ≤ a.playerNames.length))

instance : IsTotal FlyInVisit byPlayerCountDesc :=
  ⟨fun a b => Nat.le_total b.playerNames.length a.playerNames.length⟩

instance : IsTrans FlyInVisit byPlayerCountDesc :=
  ⟨fun _ _ _ h1 h2 => le_trans h2 h1⟩

/-- Line 388: all allowed (non-Sunday) dates of the planning range, each a
potential anchor day. -/
def anchorDaysOf (startDate endDate : ℤ) : List ℤ :=
  (getDatesInRange startDate endDate).filter isDateAllowed

/-- The candidate pool a `generateTrips` run works from: the candidate
builder applied to the run's eligible games, eligible players, player map,
memoised home distances and anchor days. -/
def candidatesOf (games : List GameEvent) (players : List RosterPlayer)
    (startDate endDate maxDriveMinutes : ℤ) : List TripCandidate :=
  buildCandidates hv (eligibleGames games players startDate endDate)
    (eligiblePlayers players) (mkPlayerMap players)
    (buildHomeToVenue hv (eligibleGames games players startDate endDate))
    maxDriveMinutes (anchorDaysOf startDate endDate)

variable (games : List GameEvent) (players : List RosterPlayer)
variable (startDate endDate maxDriveMinutes : ℤ) (priorityPlayers : List String)

/-- The priority-phase state of a `generateTrips` run: results, accepted
priority trips, and the `visitedPlayers` set after the phase. -/
def planPriority : List PriorityResult × List TripCandidate × List String :=
  priorityPhase (eligiblePlayers players)
    (candidatesOf hv games players startDate endDate maxDriveMinutes) priorityPlayers

/-- The greedy-phase outcome of a `generateTrips` run: accepted greedy trips
and the final `visitedPlayers` set. -/
def planGreedy : List TripCandidate × List String :=
  greedySelect (eligiblePlayers players) (mkPlayerMap players)
    (candidatesOf hv games players startDate endDate maxDriveMinutes)
    (planPriority hv games players startDate endDate maxDriveMinutes priorityPlayers).2.2

/-- `selectedTrips` at return: priority-phase trips followed by greedy-phase
trips. -/
def planTrips : List TripCandidate :=
  (planPriority hv games players startDate endDate maxDriveMinutes priorityPlayers).2.1 ++
    (planGreedy hv games players startDate endDate maxDriveMinutes priorityPlayers).1

/-- The final `visitedPlayers` set of a run. -/
def planVisited : List String :=
  (planGreedy hv games players startDate endDate maxDriveMinutes priorityPlayers).2

/-- Line 625: `playersNotOnRoadTrips`. -/
def planPNORT : List String :=
  (eligiblePlayers players).filter fun n =>
    !decide (n ∈ planVisited hv games players startDate endDate maxDriveMinutes priorityPlayers)

/-- Lines 626-682: the emitted fly-in visits (pre-sort) and the
`flyInCovered` set. -/
def planFlyRaw : List FlyInVisit × List String :=
  flyInConvert hv maxDriveMinutes
    (buildFlyInVenueMap hv (eligibleGames games players startDate endDate)
      (planPNORT hv games players startDate endDate maxDriveMinutes priorityPlayers))

/-- The non-degenerate branch of `generateTrips` (lines 374-701). -/
def generateTripsCore : TripPlan :=
  let pr := planPriority hv games players startDate endDate maxDriveMinutes priorityPlayers
  let visited := planVisited hv games players startDate endDate maxDriveMinutes priorityPlayers
  let flyRaw := planFlyRaw hv games players startDate endDate maxDriveMinutes priorityPlayers
  let pNORT := planPNORT hv games players startDate endDate maxDriveMinutes priorityPlayers
  let totalCovered : ℤ := visited.length + flyRaw.2.length
  let totalTarget : ℤ := players.foldl (fun s p => s + tierVisitTarget p.tier) 0
  { trips := planTrips hv games players startDate endDate maxDriveMinutes priorityPlayers
    flyInVisits := List.insertionSort byPlayerCountDesc flyRaw.1
    unvisitablePlayers := pNORT.filter fun n => !decide (n ∈ flyRaw.2)
    totalPlayersWithVisits := totalCovered
    totalVisitsCovered := totalCovered
    coveragePercent :=
      if 0 < totalTarget then
        round ((totalCovered : ℚ) / ((eligiblePlayers players).length : ℚ) * 100)
      else 0
    priorityResults := if pr.1.isEmpty then none else some pr.1 }

/-- `generateTrips` (lines 332-702), assembled from the blocks above.  The
`onProgress` callback only reports UI milestones and is dropped.  Lines
363-372: with no eligible games the run returns the well-formed empty plan
immediately. -/
def generateTrips : TripPlan :=
  if (eligibleGames games players startDate endDate).isEmpty then
    { trips := []
      flyInVisits := []
      unvisitablePlayers := eligiblePlayers players
      totalPlayersWithVisits := 0
      totalVisitsCovered := 0
      coveragePercent := 0
      priorityResults := none }
  else
    generateTripsCore hv games players startDate endDate maxDriveMinutes priorityPlayers

end Engine

/-! ## Basic facts about the container models -/

theorem mem_jsSetInsert [DecidableEq α] {l : List α} {a b : α} :
    a ∈ jsSetInsert l b ↔ a = b ∨ a ∈ l := by
  unfold jsSetInsert
  split
  · constructor
    · exact Or.inr
    · rintro (rfl | h)
      · assumption
      · assumption
  · simp [or_comm]

theorem mem_foldl_jsSetInsert [DecidableEq α] (l acc : List α) (a : α) :
    a ∈ l.foldl jsSetInsert acc ↔ a ∈ acc ∨ a ∈ l := by
  induction l generalizing acc with
  | nil => simp
  | cons b l ih =>
    rw [List.foldl_cons, ih, mem_jsSetInsert]
    simp only [List.mem_cons]
    tauto

theorem mem_jsSetOfList [DecidableEq α] {l : List α} {a : α} :
    a ∈ jsSetOfList l ↔ a ∈ l := by
  simp [jsSetOfList, mem_foldl_jsSetInsert]

theorem nodup_jsSetInsert [DecidableEq α] {l : List α} (h : l.Nodup) (b : α) :
    (jsSetInsert l b).Nodup := by
  unfold jsSetInsert
  split
  · exact h
  · simp_all [List.nodup_append]

theorem nodup_foldl_jsSetInsert [DecidableEq α] (l : List α) {acc : List α}
    (h : acc.Nodup) : (l.foldl jsSetInsert acc).Nodup := by
  induction l generalizing acc with
  | nil => exact h
  | cons b l ih => exact ih (nodup_jsSetInsert h b)

theorem nodup_jsSetOfList [DecidableEq α] (l : List α) : (jsSetOfList l).Nodup :=
  nodup_foldl_jsSetInsert l List.nodup_nil

theorem jsSetInsert_filter [DecidableEq α] (p : α → Bool) (l : List α) (b : α) :
    (jsSetInsert l b).filter p =
      if p b then jsSetInsert (l.filter p) b else l.filter p := by
  unfold jsSetInsert
  by_cases hb : b ∈ l
  · have hbf : p b = true → b ∈ l.filter p := fun hp => List.mem_filter.mpr ⟨hb, hp⟩
    simp only [if_pos hb]
    split
    · rw [if_pos (hbf (by assumption))]
    · rfl
  · rw [if_neg hb, List.filter_append]
    by_cases hp : p b
    · rw [if_pos hp]
      have hnf : b ∉ l.filter p := fun h => hb (List.mem_filter.mp h).1
      rw [if_neg hnf]
      simp [List.filter_cons, hp]
    · rw [if_neg hp]
      simp [List.filter_cons, hp]

theorem foldl_jsSetInsert_filter [DecidableEq α] (p : α → Bool) (l acc : List α) :
    (l.foldl jsSetInsert acc).filter p = (l.filter p).foldl jsSetInsert (acc.filter p) := by
  induction l generalizing acc with
  | nil => rfl
  | cons b l ih =>
    rw [List.foldl_cons, ih, jsSetInsert_filter, List.filter_cons]
    split
    · rfl
    · rfl

theorem jsSetOfList_filter [DecidableEq α] (p : α → Bool) (l : List α) :
    jsSetOfList (l.filter p) = (jsSetOfList l).filter p := by
  unfold jsSetOfList
  rw [foldl_jsSetInsert_filter]
  rfl

/-! ## Facts about scoring -/

/-- The contribution of a single name to `scoreTripCandidate`. -/
def weightOf (playerMap : String → Option RosterPlayer) (n : String) : ℤ :=
  match playerMap n with
  | none => 0
  | some p => tierWeight p.tier * p.visitsRemaining

theorem scoreTripCandidate_foldl (pm : String → Option RosterPlayer)
    (l : List String) (init : ℤ) :
    (l.foldl
      (fun score name =>
        match pm name with
        | none => score
        | some p => score + tierWeight p.tier * p.visitsRemaining)
      init) = init + (l.map (weightOf pm)).sum := by
  induction l generalizing init with
  | nil => simp
  | cons n l ih =>
    rw [List.foldl_cons, ih, List.map_cons, List.sum_cons]
    unfold weightOf
    cases pm n with
    | none => simp
    | some p => simp; ring

theorem scoreTripCandidate_eq_sum (l : List String) (pm : String → Option RosterPlayer) :
    scoreTripCandidate l pm = (l.map (weightOf pm)).sum := by
  unfold scoreTripCandidate
  rw [scoreTripCandidate_foldl]
  simp

theorem tierWeight_nonneg (t : ℤ) : 0 ≤ tierWeight t := by
  unfold tierWeight
  split
  · norm_num
  · split
    · norm_num
    · split
      · norm_num
      · split <;> norm_num

theorem mkPlayerMap_foldl_mem {players : List RosterPlayer} {n : String}
    {acc : Option RosterPlayer} {p : RosterPlayer}
    (h : players.foldl (fun acc q => if q.playerName = n then some q else acc) acc = some p) :
    p ∈ players ∨ acc = some p := by
  induction players generalizing acc with
  | nil => exact Or.inr h
  | cons q l ih =>
    rw [List.foldl_cons] at h
    rcases ih h with hm | hacc
    · exact Or.inl (List.mem_cons_of_mem _ hm)
    · by_cases hq : q.playerName = n
      · rw [if_pos hq] at hacc
        injection hacc with h2
        refine Or.inl ?_
        rw [← h2]
        exact List.mem_cons_self _ _
      · rw [if_neg hq] at hacc
        exact Or.inr hacc

theorem mkPlayerMap_mem {players : List RosterPlayer} {n : String} {p : RosterPlayer}
    (h : mkPlayerMap players n = some p) : p ∈ players := by
  rcases mkPlayerMap_foldl_mem h with hm | hacc
  · exact hm
  · cases hacc

theorem weightOf_nonneg {players : List RosterPlayer}
    (hvr : ∀ p ∈ players, 0 ≤ p.visitsRemaining) (n : String) :
    0 ≤ weightOf (mkPlayerMap players) n := by
  unfold weightOf
  cases h : mkPlayerMap players n with
  | none => exact le_refl 0
  | some p => exact mul_nonneg (tierWeight_nonneg _) (hvr p (mkPlayerMap_mem h))

theorem sum_toFinset_le_sum (w : String → ℤ) (hw : ∀ n, 0 ≤ w n) (l : List String) :
    l.toFinset.sum w ≤ (l.map w).sum := by
  induction l with
  | nil => simp
  | cons a l ih =>
    rw [List.toFinset_cons, List.map_cons, List.sum_cons]
    by_cases ha : a ∈ l.toFinset
    · rw [Finset.insert_eq_self.mpr ha]
      have h2 := hw a
      linarith
    · rw [Finset.sum_insert ha]
      linarith

theorem scoreTripCandidate_nonneg (pm : String → Option RosterPlayer)
    (hw : ∀ n, 0 ≤ weightOf pm n) (l : List String) :
    0 ≤ scoreTripCandidate l pm := by
  rw [scoreTripCandidate_eq_sum]
  refine List.sum_nonneg ?_
  intro x hx
  rw [List.mem_map] at hx
  rcases hx with ⟨n, -, rfl⟩
  exact hw n

/-- Sum monotonicity: with pointwise nonnegative weights, a duplicate-free
sub-collection of names scores no more than the full list. -/
theorem score_le_of_subset (pm : String → Option RosterPlayer)
    (hw : ∀ n, 0 ≤ weightOf pm n) {l1 l2 : List String}
    (h2 : l2.Nodup) (hsub : ∀ n ∈ l2, n ∈ l1) :
    scoreTripCandidate l2 pm ≤ scoreTripCandidate l1 pm := by
  rw [scoreTripCandidate_eq_sum, scoreTripCandidate_eq_sum, ← List.sum_toFinset _ h2]
  refine le_trans ?_ (sum_toFinset_le_sum (weightOf pm) hw l1)
  refine Finset.sum_le_sum_of_subset_of_nonneg ?_ fun n _ _ => hw n
  intro n hn
  rw [List.mem_toFinset] at *
  exact hsub n hn

/-! ## Facts about the stable sort model -/

theorem insertionSort_head_max {l rest : List TripCandidate} {best c : TripCandidate}
    (h : List.insertionSort byVisitValueDesc l = best :: rest) (hc : c ∈ l) :
    c.visitValue ≤ best.visitValue := by
  have hs := List.sorted_insertionSort byVisitValueDesc l
  have hm : c ∈ best :: rest := h ▸ (List.mem_insertionSort _).mpr hc
  rw [h] at hs
  rw [List.mem_cons] at hm
  rcases hm with rfl | hm
  · exact le_refl _
  · exact List.rel_of_sorted_cons hs c hm

/-- A `foldl` preserves any invariant its step function preserves. -/
theorem foldl_preserve {f : β → α → β} {P : β → Prop} {l : List α} {init : β}
    (hstep : ∀ b a, a ∈ l → P b → P (f b a)) (hinit : P init) : P (l.foldl f init) := by
  induction l generalizing init with
  | nil => exact hinit
  | cons a l ih =>
    exact ih (fun b x hx hb => hstep b x (List.mem_cons_of_mem _ hx) hb)
      (hstep init a (List.mem_cons_self _ _) hinit)

/-! ## Provenance of accepted trips -/

/-- The fields of a candidate the source never mutates after construction
(everything except `visitValue` and `totalPlayersVisited`, which the greedy
phase rewrites). -/
def candCore (c : TripCandidate) :
    GameEvent × List NearbyGame × List ℤ × ℤ × ℤ × ℤ :=
  (c.anchorGame, c.nearbyGames, c.suggestedDays, c.driveFromHomeMinutes,
    c.totalDriveMinutes, c.venueCount)

theorem candCore_rescore (eligSet : List String) (pm : String → Option RosterPlayer)
    (visited : List String) (c : TripCandidate) :
    candCore (rescore eligSet pm visited c) = candCore c := rfl

theorem candPlayerList_rescore (eligSet : List String) (pm : String → Option RosterPlayer)
    (visited : List String) (c : TripCandidate) :
    candPlayerList (rescore eligSet pm visited c) = candPlayerList c := rfl

/-- The structural facts true of every candidate the builder emits, relative
to the eligible-game list and the drive radius. -/
def CandOK (eligGames : List GameEvent) (maxDriveMinutes : ℤ) (c : TripCandidate) : Prop :=
  c.anchorGame ∈ eligGames ∧
  c.driveFromHomeMinutes ≤ maxDriveMinutes ∧
  (∀ ng ∈ c.nearbyGames, ng.driveMinutes ≤ maxDriveMinutes ∧ ng.game ∈ eligGames) ∧
  (∀ d ∈ c.suggestedDays, d = c.anchorGame.date ∨ ∃ ng ∈ c.nearbyGames, d = ng.game.date)

theorem soloCandidate_ok {eligGames : List GameEvent} {maxDriveMinutes : ℤ}
    {eligSet : List String} {pm : String → Option RosterPlayer} {anchor : GameEvent}
    {homeToAnchor : ℤ} (hanchor : anchor ∈ eligGames) (hdrive : homeToAnchor ≤ maxDriveMinutes) :
    CandOK eligGames maxDriveMinutes (soloCandidate eligSet pm anchor homeToAnchor) := by
  refine ⟨hanchor, hdrive, ?_, ?_⟩
  · intro ng h
    cases h
  · intro d hd
    simp only [soloCandidate] at hd
    rw [List.mem_singleton] at hd
    exact Or.inl hd

theorem nearbyGamesOf_mem {hv : Coordinates → Coordinates → ℚ} {maxDriveMinutes : ℤ}
    {anchor : GameEvent} {windowGames : List GameEvent} {ng : NearbyGame}
    (h : ng ∈ nearbyGamesOf hv maxDriveMinutes anchor windowGames) :
    ng.driveMinutes ≤ maxDriveMinutes ∧ ng.game ∈ windowGames := by
  unfold nearbyGamesOf at h
  rw [List.mem_filter] at h
  rcases h with ⟨hmap, hcond⟩
  simp only [Bool.and_eq_true, decide_eq_true_eq] at hcond
  rw [List.mem_map] at hmap
  rcases hmap with ⟨g, hg, rfl⟩
  exact ⟨hcond.1, hg⟩

theorem windowCandidate_ok {hv : Coordinates → Coordinates → ℚ}
    {eligGames : List GameEvent} {maxDriveMinutes : ℤ} {eligSet : List String}
    {pm : String → Option RosterPlayer} {htv : List (CoordKey × ℤ)} {anchor : GameEvent}
    {anchorDay homeToAnchor : ℤ} {windowGames : List GameEvent}
    (hanchor : anchor ∈ eligGames) (hdrive : homeToAnchor ≤ maxDriveMinutes)
    (hwin : ∀ g ∈ windowGames, g ∈ eligGames) :
    CandOK eligGames maxDriveMinutes
      (windowCandidate hv eligSet pm htv maxDriveMinutes anchor anchorDay homeToAnchor
        windowGames) := by
  refine ⟨hanchor, hdrive, ?_, ?_⟩
  · intro ng h
    have h2 := nearbyGamesOf_mem h
    exact ⟨h2.1, hwin _ h2.2⟩
  · intro d hd
    have hd2 : d ∈ jsSetOfList (anchor.date ::
        (nearbyGamesOf hv maxDriveMinutes anchor windowGames).map fun g => g.game.date) :=
      (List.mem_insertionSort _).mp hd
    rw [mem_jsSetOfList, List.mem_cons] at hd2
    rcases hd2 with rfl | hd2
    · exact Or.inl rfl
    · rw [List.mem_map] at hd2
      rcases hd2 with ⟨ng, hng, rfl⟩
      exact Or.inr ⟨ng, hng, rfl⟩

theorem processAnchor_sound {hv : Coordinates → Coordinates → ℚ}
    {eligGames : List GameEvent} {eligSet : List String}
    {pm : String → Option RosterPlayer} {htv : List (CoordKey × ℤ)} {maxDriveMinutes : ℤ}
    {anchorDay : ℤ} {st : List (CoordKey × ℤ) × List TripCandidate} {anchor : GameEvent}
    (hanchor : anchor ∈ eligGames)
    (hP : ∀ c ∈ st.2, CandOK eligGames maxDriveMinutes c) :
    ∀ c ∈ (processAnchor hv eligGames eligSet pm htv maxDriveMinutes anchorDay st anchor).2,
      CandOK eligGames maxDriveMinutes c := by
  unfold processAnchor
  split
  · exact hP
  · split
    · exact hP
    · rename_i homeToAnchor _
      split
      · exact hP
      · split
        · exact hP
        · rename_i hle _
          have hdrive : homeToAnchor ≤ maxDriveMinutes := le_of_not_lt hle
          split
          · intro c hc
            rw [List.mem_append] at hc
            rcases hc with hc | hc
            · exact hP c hc
            · rw [List.mem_singleton] at hc
              subst hc
              exact soloCandidate_ok hanchor hdrive
          · intro c hc
            rw [List.mem_append] at hc
            rcases hc with hc | hc
            · exact hP c hc
            · rw [List.mem_singleton] at hc
              subst hc
              exact windowCandidate_ok hanchor hdrive
                (fun g hg => (List.mem_filter.mp hg).1)

theorem buildCandidates_sound {hv : Coordinates → Coordinates → ℚ}
    {eligGames : List GameEvent} {eligSet : List String}
    {pm : String → Option RosterPlayer} {htv : List (CoordKey × ℤ)} {maxDriveMinutes : ℤ}
    {anchorDays : List ℤ} :
    ∀ c ∈ buildCandidates hv eligGames eligSet pm htv maxDriveMinutes anchorDays,
      CandOK eligGames maxDriveMinutes c := by
  unfold buildCandidates
  refine foldl_preserve (P := fun st : List (CoordKey × ℤ) × List TripCandidate =>
    ∀ c ∈ st.2, CandOK eligGames maxDriveMinutes c) ?_ ?_
  · intro st2 day _ h2
    refine foldl_preserve (P := fun st : List (CoordKey × ℤ) × List TripCandidate =>
      ∀ c ∈ st.2, CandOK eligGames maxDriveMinutes c) ?_ h2
    intro st3 anchor hanchor h3
    exact processAnchor_sound ((List.mem_filter.mp hanchor).1) h3
  · intro c hc
    cases hc

theorem mem_of_insertionSort_eq_cons {r : TripCandidate → TripCandidate → Prop}
    [DecidableRel r] {l rest : List TripCandidate} {best : TripCandidate}
    (h : List.insertionSort r l = best :: rest) : best ∈ l := by
  have : best ∈ List.insertionSort r l := by
    rw [h]
    exact List.mem_cons_self _ _
  exact (List.mem_insertionSort _).mp this

theorem priorityPhase_selected_mem {eligSet : List String}
    {cands : List TripCandidate} {pris : List String} :
    ∀ t ∈ (priorityPhase eligSet cands pris).2.1, t ∈ cands := by
  unfold priorityPhase
  split
  · split
    · rename_i best rest hsort
      intro t ht
      rw [List.mem_singleton] at ht
      subst ht
      exact (List.mem_filter.mp (mem_of_insertionSort_eq_cons hsort)).1
    · rename_i p1 p2 hsort
      simp only [List.foldl_cons, List.foldl_nil]
      split
      · rename_i b1 r1 h1
        split
        · rename_i b2 r2 h2
          intro t ht
          simp only [List.nil_append] at ht
          rw [List.mem_append] at ht
          rcases ht with ht | ht
          · rw [List.mem_singleton] at ht
            rw [ht]
            exact (List.mem_filter.mp (mem_of_insertionSort_eq_cons h2)).1
          · rw [List.mem_singleton] at ht
            rw [ht]
            exact (List.mem_filter.mp (mem_of_insertionSort_eq_cons h1)).1
        · rename_i h2
          intro t ht
          simp only [List.nil_append] at ht
          rw [List.mem_singleton] at ht
          subst ht
          exact (List.mem_filter.mp (mem_of_insertionSort_eq_cons h1)).1
      · rename_i h1
        split
        · rename_i b2 r2 h2
          intro t ht
          simp only [List.nil_append] at ht
          rw [List.mem_singleton] at ht
          subst ht
          exact (List.mem_filter.mp (mem_of_insertionSort_eq_cons h2)).1
        · intro t ht
          cases ht
  · split
    · rename_i best rest hsort
      intro t ht
      rw [List.mem_singleton] at ht
      subst ht
      exact (List.mem_filter.mp (mem_of_insertionSort_eq_cons hsort)).1
    · intro t ht
      cases ht
  · intro t ht
    cases ht

theorem greedyLoop_trips_core {eligSet : List String} {pm : String → Option RosterPlayer} :
    ∀ (fuel : ℕ) (cands : List TripCandidate) (visited : List String),
      ∀ t ∈ (greedyLoop eligSet pm fuel cands visited).1,
        ∃ c ∈ cands, candCore t = candCore c := by
  intro fuel
  induction fuel with
  | zero => intro cands visited t ht; cases ht
  | succ fuel ih =>
    intro cands visited t ht
    rw [greedyLoop] at ht
    revert ht
    split
    · intro ht; cases ht
    · rename_i best rest hsort
      split
      · intro ht; cases ht
      · intro ht
        have hmem : ∀ x ∈ best :: rest, ∃ c ∈ cands, candCore x = candCore c := by
          intro x hx
          have : x ∈ cands.map (rescore eligSet pm visited) :=
            (List.mem_insertionSort _).mp (hsort ▸ hx)
          rw [List.mem_map] at this
          rcases this with ⟨c, hc, rfl⟩
          exact ⟨c, hc, candCore_rescore _ _ _ _⟩
        rw [List.mem_cons] at ht
        rcases ht with rfl | ht
        · exact hmem t (List.mem_cons_self _ _)
        · rcases ih rest _ t ht with ⟨c2, hc2, hcore⟩
          rcases hmem c2 (List.mem_cons_of_mem _ hc2) with ⟨c, hc, hcore2⟩
          exact ⟨c, hc, hcore.trans hcore2⟩

/-! ## The visited-players set -/

theorem markVisited_mem {eligSet visited : List String} {c : TripCandidate} {n : String} :
    n ∈ markVisited eligSet visited c ↔
      n ∈ visited ∨ (n ∈ candPlayerList c ∧ n ∈ eligSet) := by
  unfold markVisited
  generalize candPlayerList c = l
  induction l generalizing visited with
  | nil => simp
  | cons m l ih =>
    rw [List.foldl_cons, ih]
    by_cases hm : m ∈ eligSet
    · rw [if_pos hm]
      rw [mem_jsSetInsert]
      simp only [List.mem_cons]
      constructor
      · rintro ((rfl | h) | ⟨hl, he⟩)
        · exact Or.inr ⟨Or.inl rfl, hm⟩
        · exact Or.inl h
        · exact Or.inr ⟨Or.inr hl, he⟩
      · rintro (h | ⟨(rfl | hl), he⟩)
        · exact Or.inl (Or.inr h)
        · exact Or.inl (Or.inl rfl)
        · exact Or.inr ⟨hl, he⟩
    · rw [if_neg hm]
      simp only [List.mem_cons]
      constructor
      · rintro (h | ⟨hl, he⟩)
        · exact Or.inl h
        · exact Or.inr ⟨Or.inr hl, he⟩
      · rintro (h | ⟨(rfl | hl), he⟩)
        · exact Or.inl h
        · exact absurd he hm
        · exact Or.inr ⟨hl, he⟩

theorem greedyLoop_visited {eligSet : List String} {pm : String → Option RosterPlayer} :
    ∀ (fuel : ℕ) (cands : List TripCandidate) (visited : List String) (n : String),
      n ∈ (greedyLoop eligSet pm fuel cands visited).2 ↔
        n ∈ visited ∨ ∃ t ∈ (greedyLoop eligSet pm fuel cands visited).1,
          n ∈ candPlayerList t ∧ n ∈ eligSet := by
  intro fuel
  induction fuel with
  | zero =>
    intro cands visited n
    simp [greedyLoop]
  | succ fuel ih =>
    intro cands visited n
    rw [greedyLoop]
    split
    · simp
    · rename_i best rest hsort
      split
      · simp
      · dsimp only
        constructor
        · intro h
          rcases (ih rest _ n).mp h with h2 | ⟨t, ht, hp⟩
          · rcases markVisited_mem.mp h2 with h3 | h3
            · exact Or.inl h3
            · exact Or.inr ⟨best, List.mem_cons_self _ _, h3⟩
          · exact Or.inr ⟨t, List.mem_cons_of_mem _ ht, hp⟩
        · intro h
          rcases h with h2 | ⟨t, ht, hp⟩
          · exact (ih rest _ n).mpr (Or.inl (markVisited_mem.mpr (Or.inl h2)))
          · rw [List.mem_cons] at ht
            rcases ht with rfl | ht
            · exact (ih rest _ n).mpr (Or.inl (markVisited_mem.mpr (Or.inr hp)))
            · exact (ih rest _ n).mpr (Or.inr ⟨t, ht, hp⟩)

theorem priorityPhase_visited {eligSet : List String} {cands : List TripCandidate}
    {pris : List String} {n : String} :
    n ∈ (priorityPhase eligSet cands pris).2.2 ↔
      ∃ t ∈ (priorityPhase eligSet cands pris).2.1, n ∈ candPlayerList t ∧ n ∈ eligSet := by
  unfold priorityPhase
  split
  · split
    · dsimp only
      rw [markVisited_mem]
      simp
    · simp only [List.foldl_cons, List.foldl_nil]
      split
      · split
        · dsimp only
          rw [markVisited_mem, markVisited_mem]
          simp only [List.not_mem_nil, false_or, List.nil_append, List.mem_append,
            List.mem_singleton]
          constructor
          · rintro (h | h)
            · exact ⟨_, Or.inl rfl, h⟩
            · exact ⟨_, Or.inr rfl, h⟩
          · rintro ⟨t, ht | ht, h⟩
            · rw [ht] at h
              exact Or.inl h
            · rw [ht] at h
              exact Or.inr h
        · dsimp only
          rw [markVisited_mem]
          simp
      · split
        · dsimp only
          rw [markVisited_mem]
          simp
        · simp
  · split
    · dsimp only
      rw [markVisited_mem]
      simp
    · simp
  · simp

theorem planVisited_iff (hv : Coordinates → Coordinates → ℚ) (games : List GameEvent)
    (players : List RosterPlayer) (startDate endDate maxDriveMinutes : ℤ)
    (priorityPlayers : List String) (n : String) :
    n ∈ planVisited hv games players startDate endDate maxDriveMinutes priorityPlayers ↔
      ∃ t ∈ planTrips hv games players startDate endDate maxDriveMinutes priorityPlayers,
        n ∈ candPlayerList t ∧ n ∈ eligiblePlayers players := by
  unfold planVisited planTrips planGreedy greedySelect planPriority
  rw [greedyLoop_visited, priorityPhase_visited]
  constructor
  · rintro (⟨t, ht, hp⟩ | ⟨t, ht, hp⟩)
    · exact ⟨t, List.mem_append.mpr (Or.inl ht), hp⟩
    · exact ⟨t, List.mem_append.mpr (Or.inr ht), hp⟩
  · rintro ⟨t, ht, hp⟩
    rcases List.mem_append.mp ht with ht | ht
    · exact Or.inl ⟨t, ht, hp⟩
    · exact Or.inr ⟨t, ht, hp⟩

/-! ## The fly-in classifier -/

theorem flyInAddGame_players {hv : Coordinates → Coordinates → ℚ} {pNORT : List String}
    {m : List (CoordKey × FlyInEntry)} {game : GameEvent}
    (hm : ∀ e ∈ m, ∀ n ∈ e.2.players, n ∈ pNORT) :
    ∀ e ∈ flyInAddGame hv pNORT m game, ∀ n ∈ e.2.players, n ∈ pNORT := by
  have hrel : ∀ n ∈ relevantPlayersOf pNORT game, n ∈ pNORT := by
    intro n hn
    have := List.mem_filter.mp hn
    exact of_decide_eq_true this.2
  unfold flyInAddGame
  split
  · exact hm
  · split
    · exact hm
    · split
      · intro e he n hn
        rw [List.mem_map] at he
        rcases he with ⟨e0, he0, rfl⟩
        revert hn
        split
        · intro hn
          rcases (mem_foldl_jsSetInsert _ _ _).mp hn with h | h
          · exact hm e0 he0 n h
          · exact hrel n h
        · intro hn
          exact hm e0 he0 n hn
      · intro e he n hn
        rw [List.mem_append] at he
        rcases he with he | he
        · exact hm e he n hn
        · rw [List.mem_singleton] at he
          rw [he] at hn
          exact hrel n (mem_jsSetOfList.mp hn)

theorem buildFlyInVenueMap_players {hv : Coordinates → Coordinates → ℚ}
    {eligGames : List GameEvent} {pNORT : List String} :
    ∀ e ∈ buildFlyInVenueMap hv eligGames pNORT, ∀ n ∈ e.2.players, n ∈ pNORT := by
  unfold buildFlyInVenueMap
  refine foldl_preserve (P := fun m : List (CoordKey × FlyInEntry) =>
    ∀ e ∈ m, ∀ n ∈ e.2.players, n ∈ pNORT) ?_ ?_
  · intro m game _ h
    exact flyInAddGame_players h
  · intro e he
    cases he

theorem flyInConvert_players {hv : Coordinates → Coordinates → ℚ} {maxDriveMinutes : ℤ}
    {m : List (CoordKey × FlyInEntry)} :
    ∀ f ∈ (flyInConvert hv maxDriveMinutes m).1, ∀ n ∈ f.playerNames,
      ∃ e ∈ m, n ∈ e.2.players := by
  unfold flyInConvert
  refine foldl_preserve (P := fun acc : List FlyInVisit × List String =>
    ∀ f ∈ acc.1, ∀ n ∈ f.playerNames, ∃ e ∈ m, n ∈ e.2.players) ?_ ?_
  · intro acc e he h
    dsimp only
    split
    · exact h
    · intro f hf n hn
      rw [List.mem_append] at hf
      rcases hf with hf | hf
      · exact h f hf n hn
      · rw [List.mem_singleton] at hf
        rw [hf] at hn
        exact ⟨e, he, hn⟩
  · intro f hf
    cases hf

theorem flyInConvert_covered {hv : Coordinates → Coordinates → ℚ} {maxDriveMinutes : ℤ}
    {m : List (CoordKey × FlyInEntry)} {n : String} :
    n ∈ (flyInConvert hv maxDriveMinutes m).2 ↔
      ∃ f ∈ (flyInConvert hv maxDriveMinutes m).1, n ∈ f.playerNames := by
  unfold flyInConvert
  refine foldl_preserve (P := fun acc : List FlyInVisit × List String =>
    (n ∈ acc.2 ↔ ∃ f ∈ acc.1, n ∈ f.playerNames)) ?_ ?_
  · intro acc e _ h
    dsimp only
    split
    · exact h
    · rw [mem_foldl_jsSetInsert, h]
      constructor
      · rintro (⟨f, hf, hn⟩ | hn)
        · exact ⟨f, List.mem_append.mpr (Or.inl hf), hn⟩
        · exact ⟨_, List.mem_append.mpr (Or.inr (List.mem_singleton.mpr rfl)), hn⟩
      · rintro ⟨f, hf, hn⟩
        rcases List.mem_append.mp hf with hf | hf
        · exact Or.inl ⟨f, hf, hn⟩
        · rw [List.mem_singleton] at hf
          rw [hf] at hn
          exact Or.inr hn
  · simp

theorem planTrips_core (hv : Coordinates → Coordinates → ℚ) (games : List GameEvent)
    (players : List RosterPlayer) (startDate endDate maxDriveMinutes : ℤ)
    (priorityPlayers : List String) :
    ∀ t ∈ planTrips hv games players startDate endDate maxDriveMinutes priorityPlayers,
      ∃ c ∈ candidatesOf hv games players startDate endDate maxDriveMinutes,
        candCore t = candCore c := by
  intro t ht
  unfold planTrips at ht
  rw [List.mem_append] at ht
  rcases ht with ht | ht
  · exact ⟨t, priorityPhase_selected_mem t ht, rfl⟩
  · unfold planGreedy greedySelect at ht
    rcases greedyLoop_trips_core _ _ _ t ht with ⟨c2, hc2, hcore⟩
    exact ⟨c2, (List.mem_insertionSort _).mp hc2, hcore⟩

theorem generateTripsCore_trips (hv : Coordinates → Coordinates → ℚ)
    (games : List GameEvent) (players : List RosterPlayer)
    (startDate endDate maxDriveMinutes : ℤ) (priorityPlayers : List String) :
    (generateTripsCore hv games players startDate endDate maxDriveMinutes
        priorityPlayers).trips =
      planTrips hv games players startDate endDate maxDriveMinutes priorityPlayers := rfl

theorem generateTripsCore_flyInVisits (hv : Coordinates → Coordinates → ℚ)
    (games : List GameEvent) (players : List RosterPlayer)
    (startDate endDate maxDriveMinutes : ℤ) (priorityPlayers : List String) :
    (generateTripsCore hv games players startDate endDate maxDriveMinutes
        priorityPlayers).flyInVisits =
      List.insertionSort byPlayerCountDesc
        (planFlyRaw hv games players startDate endDate maxDriveMinutes
          priorityPlayers).1 := rfl

theorem generateTripsCore_unvisitable (hv : Coordinates → Coordinates → ℚ)
    (games : List GameEvent) (players : List RosterPlayer)
    (startDate endDate maxDriveMinutes : ℤ) (priorityPlayers : List String) :
    (generateTripsCore hv games players startDate endDate maxDriveMinutes
        priorityPlayers).unvisitablePlayers =
      (planPNORT hv games players startDate endDate maxDriveMinutes
        priorityPlayers).filter fun n =>
          !decide (n ∈ (planFlyRaw hv games players startDate endDate maxDriveMinutes
            priorityPlayers).2) := rfl

theorem planPNORT_mem {hv : Coordinates → Coordinates → ℚ} {games : List GameEvent}
    {players : List RosterPlayer} {startDate endDate maxDriveMinutes : ℤ}
    {priorityPlayers : List String} {n : String} :
    n ∈ planPNORT hv games players startDate endDate maxDriveMinutes priorityPlayers ↔
      n ∈ eligiblePlayers players ∧
        n ∉ planVisited hv games players startDate endDate maxDriveMinutes
          priorityPlayers := by
  unfold planPNORT
  rw [List.mem_filter]
  simp

theorem planFlyRaw_players {hv : Coordinates → Coordinates → ℚ} {games : List GameEvent}
    {players : List RosterPlayer} {startDate endDate maxDriveMinutes : ℤ}
    {priorityPlayers : List String} :
    ∀ f ∈ (planFlyRaw hv games players startDate endDate maxDriveMinutes
        priorityPlayers).1,
      ∀ n ∈ f.playerNames,
        n ∈ planPNORT hv games players startDate endDate maxDriveMinutes
          priorityPlayers := by
  unfold planFlyRaw
  intro f hf n hn
  rcases flyInConvert_players f hf n hn with ⟨ent, hent, hp⟩
  exact buildFlyInVenueMap_players ent hent n hp

/-! ## Claim C5: the priority phase on a pair of names -/

theorem generateTripsCore_priorityResults (hv : Coordinates → Coordinates → ℚ)
    (games : List GameEvent) (players : List RosterPlayer)
    (startDate endDate maxDriveMinutes : ℤ) (priorityPlayers : List String) :
    (generateTripsCore hv games players startDate endDate maxDriveMinutes
        priorityPlayers).priorityResults =
      if (planPriority hv games players startDate endDate maxDriveMinutes
        priorityPlayers).1.isEmpty then none
      else some (planPriority hv games players startDate endDate maxDriveMinutes
        priorityPlayers).1 := rfl

theorem insertionSort_eq_nil_iff {r : TripCandidate → TripCandidate → Prop}
    [DecidableRel r] {l : List TripCandidate} :
    List.insertionSort r l = [] ↔ l = [] := by
  constructor
  · intro h
    have h2 := List.length_insertionSort r l
    rw [h] at h2
    exact (List.length_eq_zero.mp h2.symm)
  · rintro rfl
    rfl

theorem priorityPhase_pair_both {eligSet : List String} {cs : List TripCandidate}
    {p1 p2 : String} {best : TripCandidate} {tail : List TripCandidate}
    (hsort : List.insertionSort byVisitValueDesc (cs.filter fun c =>
      decide (p1 ∈ candPlayerList c) && decide (p2 ∈ candPlayerList c)) = best :: tail) :
    priorityPhase eligSet cs [p1, p2] =
      ([⟨p1, .included, none⟩, ⟨p2, .included, none⟩], [best],
        markVisited eligSet [] best) := by
  unfold priorityPhase
  dsimp only
  rw [hsort]

theorem priorityPhase_pair_sep_both {eligSet : List String} {cs : List TripCandidate}
    {p1 p2 : String} {b1 b2 : TripCandidate} {t1 t2 : List TripCandidate}
    (hsort : List.insertionSort byVisitValueDesc (cs.filter fun c =>
      decide (p1 ∈ candPlayerList c) && decide (p2 ∈ candPlayerList c)) = [])
    (hs1 : List.insertionSort byVisitValueDesc (candidatesWithPlayer cs p1) = b1 :: t1)
    (hs2 : List.insertionSort byVisitValueDesc (candidatesWithPlayer cs p2) = b2 :: t2) :
    priorityPhase eligSet cs [p1, p2] =
      ([⟨p1, .separateTrip, some (priorityReasonSeparate p1 p2)⟩,
        ⟨p2, .separateTrip, some (priorityReasonSeparate p1 p2)⟩], [b1, b2],
        markVisited eligSet (markVisited eligSet [] b1) b2) := by
  unfold priorityPhase
  dsimp only
  rw [hsort]
  simp only [List.foldl_cons, List.foldl_nil]
  rw [hs1, hs2]
  rfl

theorem priorityPhase_pair_sep_one {eligSet : List String} {cs : List TripCandidate}
    {p1 p2 : String} {b1 : TripCandidate} {t1 : List TripCandidate}
    (hsort : List.insertionSort byVisitValueDesc (cs.filter fun c =>
      decide (p1 ∈ candPlayerList c) && decide (p2 ∈ candPlayerList c)) = [])
    (hs1 : List.insertionSort byVisitValueDesc (candidatesWithPlayer cs p1) = b1 :: t1)
    (hs2 : List.insertionSort byVisitValueDesc (candidatesWithPlayer cs p2) = []) :
    priorityPhase eligSet cs [p1, p2] =
      ([⟨p1, .separateTrip, some (priorityReasonSeparate p1 p2)⟩,
        ⟨p2, .unreachable, some (priorityReasonUnreachable p2)⟩], [b1],
        markVisited eligSet [] b1) := by
  unfold priorityPhase
  dsimp only
  rw [hsort]
  simp only [List.foldl_cons, List.foldl_nil]
  rw [hs1, hs2]
  rfl

theorem priorityPhase_pair_sep_two {eligSet : List String} {cs : List TripCandidate}
    {p1 p2 : String} {b2 : TripCandidate} {t2 : List TripCandidate}
    (hsort : List.insertionSort byVisitValueDesc (cs.filter fun c =>
      decide (p1 ∈ candPlayerList c) && decide (p2 ∈ candPlayerList c)) = [])
    (hs1 : List.insertionSort byVisitValueDesc (candidatesWithPlayer cs p1) = [])
    (hs2 : List.insertionSort byVisitValueDesc (candidatesWithPlayer cs p2) = b2 :: t2) :
    priorityPhase eligSet cs [p1, p2] =
      ([⟨p1, .unreachable, some (priorityReasonUnreachable p1)⟩,
        ⟨p2, .separateTrip, some (priorityReasonSeparate p1 p2)⟩], [b2],
        markVisited eligSet [] b2) := by
  unfold priorityPhase
  dsimp only
  rw [hsort]
  simp only [List.foldl_cons, List.foldl_nil]
  rw [hs1, hs2]
  rfl

theorem priorityPhase_pair_none {eligSet : List String} {cs : List TripCandidate}
    {p1 p2 : String}
    (hsort : List.insertionSort byVisitValueDesc (cs.filter fun c =>
      decide (p1 ∈ candPlayerList c) && decide (p2 ∈ candPlayerList c)) = [])
    (hs1 : List.insertionSort byVisitValueDesc (candidatesWithPlayer cs p1) = [])
    (hs2 : List.insertionSort byVisitValueDesc (candidatesWithPlayer cs p2) = []) :
    priorityPhase eligSet cs [p1, p2] =
      ([⟨p1, .unreachable, some (priorityReasonUnreachable p1)⟩,
        ⟨p2, .unreachable, some (priorityReasonUnreachable p2)⟩], [], []) := by
  unfold priorityPhase
  dsimp only
  rw [hsort]
  simp only [List.foldl_cons, List.foldl_nil]
  rw [hs1, hs2]
  rfl

/-! ## Observables of a returned Trip Plan -/

/-- An athlete the plan counts as covered by its road trips: eligible and
appearing in some accepted trip's player lists. -/
def coveredByTrips (players : List RosterPlayer) (plan : TripPlan) (n : String) : Prop :=
  n ∈ eligiblePlayers players ∧ ∃ t ∈ plan.trips, n ∈ candPlayerList t

/-- An athlete appearing in some fly-in visit record of the plan. -/
def coveredByFlyIn (plan : TripPlan) (n : String) : Prop :=
  ∃ f ∈ plan.flyInVisits, n ∈ f.playerNames

/-- **C1**.  For every roster and event list, the athletes with
`visitsRemaining > 0` at planning start are exactly partitioned by the
returned plan: each such athlete is covered by the selected trips, or appears
in some `flyInVisits` entry's `playerNames`, or appears in
`unvisitablePlayers`, and no athlete falls in more than one of the three
groups. -/
theorem c1_coverage_partition (hv : Coordinates → Coordinates → ℚ)
    (games : List GameEvent) (players : List RosterPlayer)
    (startDate endDate maxDriveMinutes : ℤ) (priorityPlayers : List String)
    (n : String) :
    (n ∈ eligiblePlayers players ↔
      (coveredByTrips players
          (generateTrips hv games players startDate endDate maxDriveMinutes
            priorityPlayers) n ∨
        coveredByFlyIn
          (generateTrips hv games players startDate endDate maxDriveMinutes
            priorityPlayers) n ∨
        n ∈ (generateTrips hv games players startDate endDate maxDriveMinutes
          priorityPlayers).unvisitablePlayers)) ∧
    ¬(coveredByTrips players
        (generateTrips hv games players startDate endDate maxDriveMinutes
          priorityPlayers) n ∧
      coveredByFlyIn
        (generateTrips hv games players startDate endDate maxDriveMinutes
          priorityPlayers) n) ∧
    ¬(coveredByTrips players
        (generateTrips hv games players startDate endDate maxDriveMinutes
          priorityPlayers) n ∧
      n ∈ (generateTrips hv games players startDate endDate maxDriveMinutes
        priorityPlayers).unvisitablePlayers) ∧
    ¬(coveredByFlyIn
        (generateTrips hv games players startDate endDate maxDriveMinutes
          priorityPlayers) n ∧
      n ∈ (generateTrips hv games players startDate endDate maxDriveMinutes
        priorityPlayers).unvisitablePlayers) := by
  unfold generateTrips
  split
  · unfold coveredByTrips coveredByFlyIn
    dsimp only
    constructor
    · constructor
      · intro h
        exact Or.inr (Or.inr h)
      · rintro (⟨he, t, ht, _⟩ | ⟨f, hf, _⟩ | h)
        · exact he
        · cases hf
        · exact h
    · refine ⟨?_, ?_, ?_⟩
      · rintro ⟨⟨_, t, ht, _⟩, _⟩
        cases ht
      · rintro ⟨⟨_, t, ht, _⟩, _⟩
        cases ht
      · rintro ⟨⟨f, hf, _⟩, _⟩
        cases hf
  · unfold coveredByTrips coveredByFlyIn
    rw [generateTripsCore_trips, generateTripsCore_flyInVisits,
      generateTripsCore_unvisitable]
    have hvis : n ∈ planVisited hv games players startDate endDate maxDriveMinutes
        priorityPlayers ↔
        n ∈ eligiblePlayers players ∧
          ∃ t ∈ planTrips hv games players startDate endDate maxDriveMinutes
            priorityPlayers, n ∈ candPlayerList t := by
      rw [planVisited_iff]
      constructor
      · rintro ⟨t, ht, hp, he⟩
        exact ⟨he, t, ht, hp⟩
      · rintro ⟨he, t, ht, hp⟩
        exact ⟨t, ht, hp, he⟩
    have hfly : (∃ f ∈ List.insertionSort byPlayerCountDesc
        (planFlyRaw hv games players startDate endDate maxDriveMinutes
          priorityPlayers).1, n ∈ f.playerNames) ↔
        n ∈ (planFlyRaw hv games players startDate endDate maxDriveMinutes
          priorityPlayers).2 := by
      unfold planFlyRaw
      rw [flyInConvert_covered]
      constructor
      · rintro ⟨f, hf, hn⟩
        exact ⟨f, (List.mem_insertionSort _).mp hf, hn⟩
      · rintro ⟨f, hf, hn⟩
        exact ⟨f, (List.mem_insertionSort _).mpr hf, hn⟩
    have hunv : n ∈ ((planPNORT hv games players startDate endDate maxDriveMinutes
          priorityPlayers).filter fun n =>
            !decide (n ∈ (planFlyRaw hv games players startDate endDate maxDriveMinutes
              priorityPlayers).2)) ↔
        (n ∈ eligiblePlayers players ∧
          n ∉ planVisited hv games players startDate endDate maxDriveMinutes
            priorityPlayers) ∧
          n ∉ (planFlyRaw hv games players startDate endDate maxDriveMinutes
            priorityPlayers).2 := by
      rw [List.mem_filter, planPNORT_mem]
      simp
    have hflysub : n ∈ (planFlyRaw hv games players startDate endDate maxDriveMinutes
        priorityPlayers).2 →
        n ∈ eligiblePlayers players ∧
          n ∉ planVisited hv games players startDate endDate maxDriveMinutes
            priorityPlayers := by
      intro h
      unfold planFlyRaw at h
      rcases flyInConvert_covered.mp h with ⟨f, hf, hn⟩
      exact planPNORT_mem.mp (planFlyRaw_players f hf n hn)
    refine ⟨⟨fun he => ?_, fun h => ?_⟩, fun h => ?_, fun h => ?_, fun h => ?_⟩
    · by_cases h1 : n ∈ planVisited hv games players startDate endDate maxDriveMinutes
        priorityPlayers
      · exact Or.inl (hvis.mp h1)
      · by_cases h2 : n ∈ (planFlyRaw hv games players startDate endDate maxDriveMinutes
          priorityPlayers).2
        · exact Or.inr (Or.inl (hfly.mpr h2))
        · exact Or.inr (Or.inr (hunv.mpr ⟨⟨he, h1⟩, h2⟩))
    · rcases h with h | h | h
      · exact h.1
      · exact (hflysub (hfly.mp h)).1
      · exact (hunv.mp h).1.1
    · exact (hflysub (hfly.mp h.2)).2 (hvis.mpr h.1)
    · exact (hunv.mp h.2).1.2 (hvis.mpr h.1)
    · exact (hunv.mp h.2).2 (hfly.mp h.1)

/-! ## Claims C3 and C7 -/

theorem eligibleGames_dateAllowed {games : List GameEvent} {players : List RosterPlayer}
    {startDate endDate : ℤ} {g : GameEvent}
    (h : g ∈ eligibleGames games players startDate endDate) :
    isDateAllowed g.date = true := by
  unfold eligibleGames at h
  have h2 := (List.mem_filter.mp h).2
  simp only [Bool.and_eq_true] at h2
  exact h2.1.1.1

theorem isSunday_eq_false {d : ℤ} (h : isDateAllowed d = true) : isSunday d = false := by
  unfold isDateAllowed at h
  simp only [Bool.not_eq_eq_eq_not, Bool.not_true] at h
  exact h

/-- **C3**.  Every trip in the returned plan satisfies
`driveFromHomeMinutes ≤ maxDriveMinutes`, and every one of its `nearbyGames`
has `driveMinutes ≤ maxDriveMinutes`. -/
theorem c3_radius_invariant (hv : Coordinates → Coordinates → ℚ)
    (games : List GameEvent) (players : List RosterPlayer)
    (startDate endDate maxDriveMinutes : ℤ) (priorityPlayers : List String)
    (t : TripCandidate)
    (ht : t ∈ (generateTrips hv games players startDate endDate maxDriveMinutes
      priorityPlayers).trips) :
    t.driveFromHomeMinutes ≤ maxDriveMinutes ∧
      ∀ ng ∈ t.nearbyGames, ng.driveMinutes ≤ maxDriveMinutes := by
  unfold generateTrips at ht
  revert ht
  split
  · intro ht
    cases ht
  · intro ht
    rw [generateTripsCore_trips] at ht
    rcases planTrips_core hv games players startDate endDate maxDriveMinutes
      priorityPlayers t ht with ⟨c, hc, hcore⟩
    have hok := buildCandidates_sound c hc
    simp only [candCore, Prod.mk.injEq] at hcore
    obtain ⟨-, hn, -, hd, -, -⟩ := hcore
    rw [hd, hn]
    exact ⟨hok.2.1, fun ng hng => (hok.2.2.1 ng hng).1⟩

/-- Distance function used by the concrete runs: every pair of coordinates is
0 km apart (all venues within any radius). -/
def hvZero : Coordinates → Coordinates → ℚ := fun _ _ => 0

/-- A tier-1 athlete with one visit remaining. -/
def exPlayerA : RosterPlayer := ⟨"A", 1, 1⟩

/-- A game for athlete `A` on Thursday 2024-10-03 (epoch day 19999). -/
def exGameThu : GameEvent :=
  ⟨"g1", 19999, ⟨"V1", ⟨1, 1⟩⟩, true, .mlbApi, ["A"], none⟩

/-- A game for athlete `A` on Friday 2024-10-04 (epoch day 20000), at a
different venue in the same trip window. -/
def exGameFri : GameEvent :=
  ⟨"g3", 20000, ⟨"V2", ⟨2, 2⟩⟩, true, .mlbApi, ["A"], none⟩

theorem c3_radius_invariant_witness :
    (generateTrips hvZero [exGameThu, exGameFri] [exPlayerA] 19999 20000 180
        []).trips.headI ∈
      (generateTrips hvZero [exGameThu, exGameFri] [exPlayerA] 19999 20000 180
        []).trips ∧
    ((generateTrips hvZero [exGameThu, exGameFri] [exPlayerA] 19999 20000 180
        []).trips.headI.driveFromHomeMinutes ≤ 180 ∧
      ∀ ng ∈ (generateTrips hvZero [exGameThu, exGameFri] [exPlayerA] 19999 20000 180
        []).trips.headI.nearbyGames, ng.driveMinutes ≤ 180) :=
  ⟨by decide,
    c3_radius_invariant hvZero [exGameThu, exGameFri] [exPlayerA] 19999 20000 180 []
      _ (by decide)⟩

/-- **C7**.  No trip in the returned plan has a `suggestedDays` entry falling
on a Sunday. -/
theorem c7_blackout_exclusion (hv : Coordinates → Coordinates → ℚ)
    (games : List GameEvent) (players : List RosterPlayer)
    (startDate endDate maxDriveMinutes : ℤ) (priorityPlayers : List String)
    (t : TripCandidate)
    (ht : t ∈ (generateTrips hv games players startDate endDate maxDriveMinutes
      priorityPlayers).trips) :
    ∀ d ∈ t.suggestedDays, isSunday d = false := by
  unfold generateTrips at ht
  revert ht
  split
  · intro ht
    cases ht
  · intro ht
    rw [generateTripsCore_trips] at ht
    rcases planTrips_core hv games players startDate endDate maxDriveMinutes
      priorityPlayers t ht with ⟨c, hc, hcore⟩
    have hok := buildCandidates_sound c hc
    simp only [candCore, Prod.mk.injEq] at hcore
    obtain ⟨ha, hn, hs, -, -, -⟩ := hcore
    rw [hs]
    intro d hd
    rcases hok.2.2.2 d hd with hda | ⟨ng, hng, hdn⟩
    · rw [hda]
      exact isSunday_eq_false (eligibleGames_dateAllowed hok.1)
    · rw [hdn]
      exact isSunday_eq_false (eligibleGames_dateAllowed (hok.2.2.1 ng hng).2)

theorem c7_blackout_exclusion_witness :
    (generateTrips hvZero [exGameThu, exGameFri] [exPlayerA] 19999 20000 180
        []).trips.headI ∈
      (generateTrips hvZero [exGameThu, exGameFri] [exPlayerA] 19999 20000 180
        []).trips ∧
    ∀ d ∈ (generateTrips hvZero [exGameThu, exGameFri] [exPlayerA] 19999 20000 180
      []).trips.headI.suggestedDays, isSunday d = false :=
  ⟨by decide,
    c7_blackout_exclusion hvZero [exGameThu, exGameFri] [exPlayerA] 19999 20000 180 []
      _ (by decide)⟩

/-! ## Claim C2 -/

theorem candPlayerList_names {eligGames : List GameEvent} {maxDriveMinutes : ℤ}
    {c : TripCandidate} (hok : CandOK eligGames maxDriveMinutes c) {n : String}
    (hn : n ∈ candPlayerList c) : ∃ g ∈ eligGames, n ∈ g.playerNames := by
  unfold candPlayerList at hn
  rw [List.mem_append] at hn
  rcases hn with hn | hn
  · exact ⟨c.anchorGame, hok.1, hn⟩
  · rw [List.mem_flatMap] at hn
    rcases hn with ⟨ng, hng, hn⟩
    exact ⟨ng.game, (hok.2.2.1 ng hng).2, hn⟩

theorem relevantPlayersOf_names {pNORT : List String} {game : GameEvent} {n : String}
    (h : n ∈ relevantPlayersOf pNORT game) : n ∈ game.playerNames :=
  (List.mem_filter.mp h).1

theorem flyInAddGame_names {hv : Coordinates → Coordinates → ℚ} {pNORT : List String}
    {m : List (CoordKey × FlyInEntry)} {game : GameEvent} {gs : List GameEvent}
    (hgame : game ∈ gs)
    (hm : ∀ e ∈ m, ∀ n ∈ e.2.players, ∃ g ∈ gs, n ∈ g.playerNames) :
    ∀ e ∈ flyInAddGame hv pNORT m game, ∀ n ∈ e.2.players,
      ∃ g ∈ gs, n ∈ g.playerNames := by
  unfold flyInAddGame
  split
  · exact hm
  · split
    · exact hm
    · split
      · intro e he n hn
        rw [List.mem_map] at he
        rcases he with ⟨e0, he0, rfl⟩
        revert hn
        split
        · intro hn
          rcases (mem_foldl_jsSetInsert _ _ _).mp hn with h | h
          · exact hm e0 he0 n h
          · exact ⟨game, hgame, relevantPlayersOf_names h⟩
        · intro hn
          exact hm e0 he0 n hn
      · intro e he n hn
        rw [List.mem_append] at he
        rcases he with he | he
        · exact hm e he n hn
        · rw [List.mem_singleton] at he
          rw [he] at hn
          exact ⟨game, hgame, relevantPlayersOf_names (mem_jsSetOfList.mp hn)⟩

theorem buildFlyInVenueMap_names {hv : Coordinates → Coordinates → ℚ}
    {eligGames : List GameEvent} {pNORT : List String} :
    ∀ e ∈ buildFlyInVenueMap hv eligGames pNORT, ∀ n ∈ e.2.players,
      ∃ g ∈ eligGames, n ∈ g.playerNames := by
  unfold buildFlyInVenueMap
  refine foldl_preserve (P := fun m : List (CoordKey × FlyInEntry) =>
    ∀ e ∈ m, ∀ n ∈ e.2.players, ∃ g ∈ eligGames, n ∈ g.playerNames) ?_ ?_
  · intro m game hgame h
    exact flyInAddGame_names hgame h
  · intro e he
    cases he

/-- A tier-4 athlete (scoring weight 0) with one visit remaining. -/
def exPlayerAnn : RosterPlayer := ⟨"Ann", 4, 1⟩

/-- Ann's only event: Friday 2024-10-04 at a valid-coordinate venue that is
within the drive radius under `hvZero`. -/
def exGameAnn : GameEvent :=
  ⟨"ga", 20000, ⟨"VA", ⟨1, 1⟩⟩, true, .mlbApi, ["Ann"], none⟩

/-- **C2 counterexample**.  Ann has an eligible event in range (her game
passes the eligibility filter), yet the returned plan reports her in
`unvisitablePlayers`: her venue is within the drive radius, so the fly-in
classifier skips it, and the zero-weight candidate is never selected.  This
falsifies "an athlete appears in unvisitablePlayers iff that athlete had
zero eligible events anywhere in the planning range". -/
theorem c2_unvisitable_counterexample :
    (generateTrips hvZero [exGameAnn] [exPlayerAnn] 20000 20000 180
        []).unvisitablePlayers = ["Ann"] ∧
    (∃ g ∈ eligibleGames [exGameAnn] [exPlayerAnn] 20000 20000,
      "Ann" ∈ g.playerNames) ∧
    "Ann" ∈ eligiblePlayers [exPlayerAnn] := by
  refine ⟨by decide, ⟨exGameAnn, by decide, by decide⟩, by decide⟩

/-- **C2 (amended)**.  An eligible athlete appears in `unvisitablePlayers`
iff they are covered by no selected trip and appear in no `flyInVisits`
entry; and an athlete with zero eligible events in the range (the direction
of the original claim that survives) does appear in `unvisitablePlayers`. -/
theorem c2_unvisitable_characterisation (hv : Coordinates → Coordinates → ℚ)
    (games : List GameEvent) (players : List RosterPlayer)
    (startDate endDate maxDriveMinutes : ℤ) (priorityPlayers : List String)
    (n : String) (hn : n ∈ eligiblePlayers players) :
    (n ∈ (generateTrips hv games players startDate endDate maxDriveMinutes
        priorityPlayers).unvisitablePlayers ↔
      ((¬∃ t ∈ (generateTrips hv games players startDate endDate maxDriveMinutes
          priorityPlayers).trips, n ∈ candPlayerList t) ∧
        ¬∃ f ∈ (generateTrips hv games players startDate endDate maxDriveMinutes
          priorityPlayers).flyInVisits, n ∈ f.playerNames)) ∧
    ((∀ g ∈ eligibleGames games players startDate endDate, n ∉ g.playerNames) →
      n ∈ (generateTrips hv games players startDate endDate maxDriveMinutes
        priorityPlayers).unvisitablePlayers) := by
  unfold generateTrips
  split
  · dsimp only
    constructor
    · constructor
      · intro _
        constructor
        · rintro ⟨t, ht, _⟩
          cases ht
        · rintro ⟨f, hf, _⟩
          cases hf
      · intro _
        exact hn
    · intro _
      exact hn
  · rw [generateTripsCore_trips, generateTripsCore_flyInVisits,
      generateTripsCore_unvisitable]
    have hvis : n ∈ planVisited hv games players startDate endDate maxDriveMinutes
        priorityPlayers ↔
        ∃ t ∈ planTrips hv games players startDate endDate maxDriveMinutes
          priorityPlayers, n ∈ candPlayerList t := by
      rw [planVisited_iff]
      constructor
      · rintro ⟨t, ht, hp, -⟩
        exact ⟨t, ht, hp⟩
      · rintro ⟨t, ht, hp⟩
        exact ⟨t, ht, hp, hn⟩
    have hfly : (∃ f ∈ List.insertionSort byPlayerCountDesc
        (planFlyRaw hv games players startDate endDate maxDriveMinutes
          priorityPlayers).1, n ∈ f.playerNames) ↔
        n ∈ (planFlyRaw hv games players startDate endDate maxDriveMinutes
          priorityPlayers).2 := by
      unfold planFlyRaw
      rw [flyInConvert_covered]
      constructor
      · rintro ⟨f, hf, hn2⟩
        exact ⟨f, (List.mem_insertionSort _).mp hf, hn2⟩
      · rintro ⟨f, hf, hn2⟩
        exact ⟨f, (List.mem_insertionSort _).mpr hf, hn2⟩
    have hunv : n ∈ ((planPNORT hv games players startDate endDate maxDriveMinutes
          priorityPlayers).filter fun n =>
            !decide (n ∈ (planFlyRaw hv games players startDate endDate maxDriveMinutes
              priorityPlayers).2)) ↔
        (n ∈ eligiblePlayers players ∧
          n ∉ planVisited hv games players startDate endDate maxDriveMinutes
            priorityPlayers) ∧
          n ∉ (planFlyRaw hv games players startDate endDate maxDriveMinutes
            priorityPlayers).2 := by
      rw [List.mem_filter, planPNORT_mem]
      simp
    constructor
    · rw [hunv]
      constructor
      · rintro ⟨⟨-, h1⟩, h2⟩
        exact ⟨fun h => h1 (hvis.mpr h), fun h => h2 (hfly.mp h)⟩
      · rintro ⟨h1, h2⟩
        exact ⟨⟨hn, fun h => h1 (hvis.mp h)⟩, fun h => h2 (hfly.mpr h)⟩
    · intro hno
      rw [hunv]
      refine ⟨⟨hn, fun h => ?_⟩, fun h => ?_⟩
      · rcases hvis.mp h with ⟨t, ht, hp⟩
        rcases planTrips_core hv games players startDate endDate maxDriveMinutes
          priorityPlayers t ht with ⟨c, hc, hcore⟩
        have hok := buildCandidates_sound c hc
        have hp2 : n ∈ candPlayerList c := by
          have : candPlayerList t = candPlayerList c := by
            unfold candPlayerList
            simp only [candCore, Prod.mk.injEq] at hcore
            rw [hcore.1, hcore.2.1]
          rwa [this] at hp
        rcases candPlayerList_names hok hp2 with ⟨g, hg, hng⟩
        exact hno g hg hng
      · rcases flyInConvert_covered.mp h with ⟨f, hf, hn2⟩
        rcases flyInConvert_players f hf n hn2 with ⟨ent, hent, hp⟩
        rcases buildFlyInVenueMap_names ent hent n hp with ⟨g, hg, hng⟩
        exact hno g hg hng

theorem c2_unvisitable_characterisation_witness :
    "Ann" ∈ eligiblePlayers [exPlayerAnn] ∧
    ((("Ann" ∈ (generateTrips hvZero [exGameAnn] [exPlayerAnn] 20000 20000 180
        []).unvisitablePlayers ↔
      ((¬∃ t ∈ (generateTrips hvZero [exGameAnn] [exPlayerAnn] 20000 20000 180
          []).trips, "Ann" ∈ candPlayerList t) ∧
        ¬∃ f ∈ (generateTrips hvZero [exGameAnn] [exPlayerAnn] 20000 20000 180
          []).flyInVisits, "Ann" ∈ f.playerNames)) ∧
    ((∀ g ∈ eligibleGames [exGameAnn] [exPlayerAnn] 20000 20000,
        "Ann" ∉ g.playerNames) →
      "Ann" ∈ (generateTrips hvZero [exGameAnn] [exPlayerAnn] 20000 20000 180
        []).unvisitablePlayers))) :=
  ⟨by decide,
    c2_unvisitable_characterisation hvZero [exGameAnn] [exPlayerAnn] 20000 20000 180 []
      "Ann" (by decide)⟩

/-! ## Claim C6 -/

theorem rescore_visitValue (eligSet : List String) (pm : String → Option RosterPlayer)
    (visited : List String) (c : TripCandidate) :
    (rescore eligSet pm visited c).visitValue =
      scoreTripCandidate
        (jsSetOfList ((candPlayerList c).filter fun n =>
          decide (n ∈ eligSet) && !decide (n ∈ visited))) pm := rfl

theorem int_le_round_mul {s : ℤ} (hs : 0 ≤ s) {b : ℚ} (hb : 1 ≤ b) :
    s ≤ round ((s : ℚ) * b) := by
  have h1 : (s : ℚ) ≤ (s : ℚ) * b :=
    le_mul_of_one_le_right (by exact_mod_cast hs) hb
  have h2 : round ((s : ℚ)) ≤ round ((s : ℚ) * b) := by
    rw [round_eq, round_eq]
    exact Int.floor_mono (by linarith)
  rwa [round_intCast] at h2

theorem rescore_le_soloCandidate {eligSet : List String}
    {pm : String → Option RosterPlayer} (hw : ∀ n, 0 ≤ weightOf pm n)
    (anchor : GameEvent) (homeToAnchor : ℤ) (visited : List String) :
    (rescore eligSet pm visited (soloCandidate eligSet pm anchor homeToAnchor)).visitValue ≤
      (soloCandidate eligSet pm anchor homeToAnchor).visitValue := by
  rw [rescore_visitValue]
  refine score_le_of_subset pm hw (nodup_jsSetOfList _) ?_
  intro n hn
  rw [mem_jsSetOfList, List.mem_filter] at hn
  obtain ⟨hbase, hcond⟩ := hn
  simp only [Bool.and_eq_true, decide_eq_true_eq] at hcond
  rw [List.mem_filter]
  constructor
  · simp only [candPlayerList, soloCandidate, List.flatMap_nil, List.append_nil] at hbase
    exact hbase
  · exact decide_eq_true hcond.1

theorem rescore_le_windowCandidate {hv : Coordinates → Coordinates → ℚ}
    {eligSet : List String} {pm : String → Option RosterPlayer}
    (hw : ∀ n, 0 ≤ weightOf pm n) (htv : List (CoordKey × ℤ)) (maxDriveMinutes : ℤ)
    (anchor : GameEvent) (anchorDay homeToAnchor : ℤ) (windowGames : List GameEvent)
    (visited : List String) :
    (rescore eligSet pm visited
      (windowCandidate hv eligSet pm htv maxDriveMinutes anchor anchorDay homeToAnchor
        windowGames)).visitValue ≤
      (windowCandidate hv eligSet pm htv maxDriveMinutes anchor anchorDay homeToAnchor
        windowGames).visitValue := by
  rw [rescore_visitValue]
  have hle1 : scoreTripCandidate
      (jsSetOfList ((candPlayerList (windowCandidate hv eligSet pm htv maxDriveMinutes
        anchor anchorDay homeToAnchor windowGames)).filter fun n =>
          decide (n ∈ eligSet) && !decide (n ∈ visited))) pm ≤
      scoreTripCandidate
        (allPlayerNamesOf eligSet anchor
          (nearbyGamesOf hv maxDriveMinutes anchor windowGames)) pm := by
    refine score_le_of_subset pm hw (nodup_jsSetOfList _) ?_
    intro n hn
    rw [mem_jsSetOfList, List.mem_filter] at hn
    obtain ⟨hbase, hcond⟩ := hn
    simp only [Bool.and_eq_true, decide_eq_true_eq] at hcond
    unfold allPlayerNamesOf
    rw [mem_jsSetOfList, List.mem_filter]
    constructor
    · simpa only [candPlayerList, windowCandidate] using hbase
    · exact decide_eq_true hcond.1
  refine le_trans hle1 ?_
  show scoreTripCandidate (allPlayerNamesOf eligSet anchor
      (nearbyGamesOf hv maxDriveMinutes anchor windowGames)) pm ≤
    round ((scoreTripCandidate (allPlayerNamesOf eligSet anchor
      (nearbyGamesOf hv maxDriveMinutes anchor windowGames)) pm : ℚ) *
        (if getUTCDay anchorDay = ANCHOR_DAY then 1.2 else 1.0))
  refine int_le_round_mul (scoreTripCandidate_nonneg pm hw _) ?_
  split
  · norm_num
  · norm_num

theorem processAnchor_rescore_le {hv : Coordinates → Coordinates → ℚ}
    {eligGames : List GameEvent} {eligSet : List String}
    {pm : String → Option RosterPlayer} {htv : List (CoordKey × ℤ)}
    {maxDriveMinutes : ℤ} {anchorDay : ℤ}
    {st : List (CoordKey × ℤ) × List TripCandidate} {anchor : GameEvent}
    (hw : ∀ n, 0 ≤ weightOf pm n)
    (hP : ∀ c ∈ st.2, ∀ visited,
      (rescore eligSet pm visited c).visitValue ≤ c.visitValue) :
    ∀ c ∈ (processAnchor hv eligGames eligSet pm htv maxDriveMinutes anchorDay
      st anchor).2, ∀ visited,
        (rescore eligSet pm visited c).visitValue ≤ c.visitValue := by
  unfold processAnchor
  split
  · exact hP
  · split
    · exact hP
    · split
      · exact hP
      · split
        · exact hP
        · split
          · intro c hc visited
            rw [List.mem_append] at hc
            rcases hc with hc | hc
            · exact hP c hc visited
            · rw [List.mem_singleton] at hc
              rw [hc]
              exact rescore_le_soloCandidate hw _ _ _
          · intro c hc visited
            rw [List.mem_append] at hc
            rcases hc with hc | hc
            · exact hP c hc visited
            · rw [List.mem_singleton] at hc
              rw [hc]
              exact rescore_le_windowCandidate hw _ _ _ _ _ _ _

theorem buildCandidates_rescore_le {hv : Coordinates → Coordinates → ℚ}
    {eligGames : List GameEvent} {eligSet : List String}
    {pm : String → Option RosterPlayer} {htv : List (CoordKey × ℤ)}
    {maxDriveMinutes : ℤ} {anchorDays : List ℤ}
    (hw : ∀ n, 0 ≤ weightOf pm n) :
    ∀ c ∈ buildCandidates hv eligGames eligSet pm htv maxDriveMinutes anchorDays,
      ∀ visited, (rescore eligSet pm visited c).visitValue ≤ c.visitValue := by
  unfold buildCandidates
  refine foldl_preserve (P := fun st : List (CoordKey × ℤ) × List TripCandidate =>
    ∀ c ∈ st.2, ∀ visited,
      (rescore eligSet pm visited c).visitValue ≤ c.visitValue) ?_ ?_
  · intro st2 day _ h2
    refine foldl_preserve (P := fun st : List (CoordKey × ℤ) × List TripCandidate =>
      ∀ c ∈ st.2, ∀ visited,
        (rescore eligSet pm visited c).visitValue ≤ c.visitValue) ?_ h2
    intro st3 anchor _ h3
    exact processAnchor_rescore_le hw h3
  · intro c hc
    cases hc

theorem rescore_markVisited_le {eligSet : List String}
    {pm : String → Option RosterPlayer} (hw : ∀ n, 0 ≤ weightOf pm n)
    (c best : TripCandidate) (visited : List String) :
    (rescore eligSet pm (markVisited eligSet visited best) c).visitValue ≤
      (rescore eligSet pm visited c).visitValue := by
  rw [rescore_visitValue, rescore_visitValue]
  refine score_le_of_subset pm hw (nodup_jsSetOfList _) ?_
  intro n hn
  rw [mem_jsSetOfList, List.mem_filter] at hn
  obtain ⟨hbase, hcond⟩ := hn
  simp only [Bool.and_eq_true, Bool.not_eq_true', decide_eq_true_eq,
    decide_eq_false_iff_not] at hcond
  rw [mem_jsSetOfList, List.mem_filter]
  refine ⟨hbase, ?_⟩
  simp only [Bool.and_eq_true, Bool.not_eq_true', decide_eq_true_eq,
    decide_eq_false_iff_not]
  exact ⟨hcond.1, fun hV => hcond.2 (markVisited_mem.mpr (Or.inl hV))⟩

/-- **C6**.  With the roster invariant `visitsRemaining ≥ 0`, greedy rescoring
never increases a candidate's score: (i) every rescored value of a built
candidate is at most its constructed (Thursday-bonused) `visitValue`, and
(ii) rescoring against the visited set enlarged by an accepted trip yields at
most the value rescored before that acceptance. -/
theorem c6_greedy_monotonicity (hv : Coordinates → Coordinates → ℚ)
    (games : List GameEvent) (players : List RosterPlayer)
    (startDate endDate maxDriveMinutes : ℤ)
    (hvr : ∀ p ∈ players, 0 ≤ p.visitsRemaining) :
    (∀ c ∈ candidatesOf hv games players startDate endDate maxDriveMinutes,
      ∀ visited : List String,
        (rescore (eligiblePlayers players) (mkPlayerMap players) visited c).visitValue ≤
          c.visitValue) ∧
    (∀ (c best : TripCandidate) (visited : List String),
      (rescore (eligiblePlayers players) (mkPlayerMap players)
          (markVisited (eligiblePlayers players) visited best) c).visitValue ≤
        (rescore (eligiblePlayers players) (mkPlayerMap players) visited c).visitValue) := by
  have hw := weightOf_nonneg hvr
  constructor
  · intro c hc visited
    exact buildCandidates_rescore_le hw c hc visited
  · intro c best visited
    exact rescore_markVisited_le hw c best visited

theorem c6_greedy_monotonicity_witness :
    (∀ p ∈ [exPlayerA], 0 ≤ p.visitsRemaining) ∧
    ((∀ c ∈ candidatesOf hvZero [exGameThu, exGameFri] [exPlayerA] 19999 20000 180,
      ∀ visited : List String,
        (rescore (eligiblePlayers [exPlayerA]) (mkPlayerMap [exPlayerA]) visited
          c).visitValue ≤ c.visitValue) ∧
    (∀ (c best : TripCandidate) (visited : List String),
      (rescore (eligiblePlayers [exPlayerA]) (mkPlayerMap [exPlayerA])
          (markVisited (eligiblePlayers [exPlayerA]) visited best) c).visitValue ≤
        (rescore (eligiblePlayers [exPlayerA]) (mkPlayerMap [exPlayerA]) visited
          c).visitValue)) :=
  ⟨by decide,
    c6_greedy_monotonicity hvZero [exGameThu, exGameFri] [exPlayerA] 19999 20000 180
      (by decide)⟩

/-! ## Claim C4: stability machinery -/

theorem candPlayerList_eq_of_core {a b : TripCandidate}
    (h : candCore a = candCore b) : candPlayerList a = candPlayerList b := by
  unfold candPlayerList
  simp only [candCore, Prod.mk.injEq] at h
  rw [h.1, h.2.1]

theorem rescore_value_eq_of_core {eligSet : List String}
    {pm : String → Option RosterPlayer} {visited : List String} {a b : TripCandidate}
    (h : candCore a = candCore b) :
    (rescore eligSet pm visited a).visitValue = (rescore eligSet pm visited b).visitValue := by
  rw [rescore_visitValue, rescore_visitValue, candPlayerList_eq_of_core h]

theorem rescore_value_eq_of_names {eligSet : List String}
    {pm : String → Option RosterPlayer} {visited : List String} {a b : TripCandidate}
    (hn : jsSetOfList ((candPlayerList a).filter fun n => decide (n ∈ eligSet)) =
      jsSetOfList ((candPlayerList b).filter fun n => decide (n ∈ eligSet))) :
    (rescore eligSet pm visited a).visitValue = (rescore eligSet pm visited b).visitValue := by
  rw [rescore_visitValue, rescore_visitValue]
  have key : ∀ L : List String,
      jsSetOfList (L.filter fun n => decide (n ∈ eligSet) && !decide (n ∈ visited)) =
        (jsSetOfList (L.filter fun n => decide (n ∈ eligSet))).filter
          fun n => !decide (n ∈ visited) := by
    intro L
    rw [← jsSetOfList_filter, List.filter_filter]
    have hp : (fun n => decide (n ∈ eligSet) && !decide (n ∈ visited)) =
        fun n => !decide (n ∈ visited) && decide (n ∈ eligSet) := by
      funext n
      exact Bool.and_comm _ _
    rw [hp]
  rw [key, key, hn]

/-- `a` occurs strictly before `b` somewhere in `l` (as a two-element
sublist), with `p a` and `q b`. -/
def PairBefore (p q : TripCandidate → Prop) (l : List TripCandidate) : Prop :=
  ∃ a b, p a ∧ q b ∧ [a, b].Sublist l

theorem pair_sublist_of_sorted {l : List TripCandidate} {a b : TripCandidate}
    (hs : List.Sorted byVisitValueDesc l) (ha : a ∈ l) (hb : b ∈ l)
    (hab : b.visitValue < a.visitValue) : [a, b].Sublist l := by
  induction l with
  | nil => cases ha
  | cons x xs ih =>
    rw [List.sorted_cons] at hs
    rw [List.mem_cons] at ha hb
    rcases ha with rfl | ha2
    · rcases hb with rfl | hb2
      · exact absurd hab (lt_irrefl _)
      · exact (List.singleton_sublist.mpr hb2).cons₂ _
    · rcases hb with rfl | hb2
      · exact absurd hab (not_lt_of_le (hs.1 a ha2))
      · exact (ih hs.2 ha2 hb2).cons _

theorem pair_sublist_cons_cases {x y best : TripCandidate} {rest : List TripCandidate}
    (h : [x, y].Sublist (best :: rest)) :
    (x = best ∧ [y].Sublist rest) ∨ [x, y].Sublist rest := by
  cases h with
  | cons _ h2 => exact Or.inr h2
  | cons₂ _ h2 => exact Or.inl ⟨rfl, h2⟩

theorem greedyLoop_stable {eligSet : List String} {pm : String → Option RosterPlayer}
    (K1 K2 : GameEvent × List NearbyGame × List ℤ × ℤ × ℤ × ℤ) (hne : K1 ≠ K2)
    (hval : ∀ (V : List String) (a b : TripCandidate), candCore a = K1 →
      candCore b = K2 →
      (rescore eligSet pm V a).visitValue = (rescore eligSet pm V b).visitValue) :
    ∀ (fuel : ℕ) (cands : List TripCandidate) (V : List String),
      cands.countP (fun c => decide (candCore c = K1)) = 1 →
      cands.countP (fun c => decide (candCore c = K2)) = 1 →
      PairBefore (fun c => candCore c = K1) (fun c => candCore c = K2) cands →
      ∀ pre t post,
        (greedyLoop eligSet pm fuel cands V).1 = pre ++ t :: post →
        candCore t = K2 → ∃ u ∈ pre, candCore u = K1 := by
  intro fuel
  induction fuel with
  | zero =>
    intro cands V _ _ _ pre t post hout _
    rw [greedyLoop] at hout
    simp at hout
  | succ fuel ih =>
    intro cands V hc1 hc2 hpair pre t post hout htK2
    rw [greedyLoop] at hout
    revert hout
    split
    · intro hout
      simp at hout
    · rename_i best rest hsort
      obtain ⟨a, b, haK, hbK, hsub⟩ := hpair
      have hsub2 : [rescore eligSet pm V a, rescore eligSet pm V b].Sublist
          (cands.map (rescore eligSet pm V)) := by
        have h3 := hsub.map (rescore eligSet pm V)
        simpa using h3
      have haK2 : candCore (rescore eligSet pm V a) = K1 := by
        rw [candCore_rescore]; exact haK
      have hbK2 : candCore (rescore eligSet pm V b) = K2 := by
        rw [candCore_rescore]; exact hbK
      have hsorted : [rescore eligSet pm V a, rescore eligSet pm V b].Sublist
          (best :: rest) := by
        rw [← hsort]
        refine List.pair_sublist_insertionSort ?_ hsub2
        show (rescore eligSet pm V b).visitValue ≤ (rescore eligSet pm V a).visitValue
        exact le_of_eq (hval V a b haK hbK).symm
      have hcnt1 : (best :: rest).countP (fun c => decide (candCore c = K1)) = 1 := by
        rw [← hsort, (List.perm_insertionSort byVisitValueDesc _).countP_eq,
          List.countP_map]
        exact hc1
      have hcnt2 : (best :: rest).countP (fun c => decide (candCore c = K2)) = 1 := by
        rw [← hsort, (List.perm_insertionSort byVisitValueDesc _).countP_eq,
          List.countP_map]
        exact hc2
      split
      · intro hout
        simp at hout
      · intro hout
        by_cases hbestK1 : candCore best = K1
        · cases pre with
          | nil =>
            simp only [List.nil_append, List.cons.injEq] at hout
            rw [hout.1] at hbestK1
            exact absurd (hbestK1.symm.trans htK2) hne
          | cons u pre2 =>
            simp only [List.cons_append, List.cons.injEq] at hout
            refine ⟨u, List.mem_cons_self _ _, ?_⟩
            rw [← hout.1]
            exact hbestK1
        · by_cases hbestK2 : candCore best = K2
          · exfalso
            rcases pair_sublist_cons_cases hsorted with ⟨hxb, -⟩ | h2
            · rw [hxb] at haK2
              exact hbestK1 haK2
            · have hmem : rescore eligSet pm V b ∈ rest :=
                h2.subset (by simp)
              have hone : (best :: rest).countP
                  (fun c => decide (candCore c = K2)) =
                  rest.countP (fun c => decide (candCore c = K2)) + 1 := by
                rw [List.countP_cons]
                simp [hbestK2]
              have h2b : 0 < rest.countP (fun c => decide (candCore c = K2)) :=
                List.countP_pos_iff.mpr ⟨rescore eligSet pm V b, hmem, by simp [hbK2]⟩
              omega
          · have hrest : PairBefore (fun c => candCore c = K1)
                (fun c => candCore c = K2) rest := by
              rcases pair_sublist_cons_cases hsorted with ⟨hxb, -⟩ | h2
              · rw [hxb] at haK2
                exact absurd haK2 hbestK1
              · exact ⟨_, _, haK2, hbK2, h2⟩
            have hrc1 : rest.countP (fun c => decide (candCore c = K1)) = 1 := by
              rw [List.countP_cons] at hcnt1
              simpa [hbestK1] using hcnt1
            have hrc2 : rest.countP (fun c => decide (candCore c = K2)) = 1 := by
              rw [List.countP_cons] at hcnt2
              simpa [hbestK2] using hcnt2
            cases pre with
            | nil =>
              simp only [List.nil_append, List.cons.injEq] at hout
              rw [hout.1] at hbestK2
              exact absurd htK2 hbestK2
            | cons u pre2 =>
              simp only [List.cons_append, List.cons.injEq] at hout
              rcases ih rest _ hrc1 hrc2 hrest pre2 t post hout.2 htK2 with
                ⟨w, hw, hwK⟩
              exact ⟨w, List.mem_cons_of_mem _ hw, hwK⟩

theorem windowCandidate_visitValue (hv : Coordinates → Coordinates → ℚ)
    (eligSet : List String) (pm : String → Option RosterPlayer)
    (htv : List (CoordKey × ℤ)) (maxDriveMinutes : ℤ) (anchor : GameEvent)
    (anchorDay homeToAnchor : ℤ) (windowGames : List GameEvent) :
    (windowCandidate hv eligSet pm htv maxDriveMinutes anchor anchorDay homeToAnchor
        windowGames).visitValue =
      round ((scoreTripCandidate
          (allPlayerNamesOf eligSet anchor
            (nearbyGamesOf hv maxDriveMinutes anchor windowGames)) pm : ℚ) *
        (if getUTCDay anchorDay = ANCHOR_DAY then 1.2 else 1.0)) := rfl

/-- A second game for athlete `A` on Friday 2024-10-11 (epoch day 20007), in
a different week so both anchors give solo candidates. -/
def exGameFri2 : GameEvent :=
  ⟨"g2", 20007, ⟨"V2", ⟨2, 2⟩⟩, true, .mlbApi, ["A"], none⟩

/-- A tier-3 athlete: raw trip score 1, so the rounded Thursday bonus is a
no-op (`round(1.2 × 1) = 1`). -/
def exPlayerX : RosterPlayer := ⟨"X", 3, 1⟩

/-- X's game on Wednesday 2024-10-02 (epoch day 19998). -/
def exGameWedX : GameEvent :=
  ⟨"gw", 19998, ⟨"VW", ⟨1, 1⟩⟩, true, .mlbApi, ["X"], none⟩

/-- X's game on Thursday 2024-10-03 (epoch day 19999), inside the Wednesday
game's trip window and vice versa, so each anchor yields a window candidate
covering the same athlete set. -/
def exGameThuX : GameEvent :=
  ⟨"gt", 19999, ⟨"VT", ⟨2, 2⟩⟩, true, .mlbApi, ["X"], none⟩

/-- **C4 counterexample**.  Two failures of the claim as stated.  First, with
two otherwise-identical *solo* candidates over the same athlete set — one
anchored on Thursday, one on another day — the engine applies no Thursday
bonus (the solo branch at lines 422-435 skips it), so the Thursday
candidate's initial `visitValue` (5) is not `round(1.2 × 5) = 6`.  Second,
even for two *window* candidates over the same athlete set, the tie-break
part fails when the rounded bonus is a no-op: with a tier-3 athlete the raw
score is 1, both the Wednesday-anchored and the Thursday-anchored candidate
get `visitValue` `round(1.2 × 1) = 1 = round(1.0 × 1)`, they tie, and the
greedy phase (a stable sort over build order) selects the
**Wednesday**-anchored candidate first. -/
theorem c4_thursday_bonus_counterexample :
    (candidatesOf hvZero [exGameThu, exGameFri2] [exPlayerA] 19999 20007 180 =
      [⟨exGameThu, [], [19999], 1, 5, 0, 0, 1⟩,
        ⟨exGameFri2, [], [20007], 1, 5, 0, 0, 1⟩] ∧
    getUTCDay exGameThu.date = ANCHOR_DAY ∧
    getUTCDay exGameFri2.date ≠ ANCHOR_DAY ∧
    exGameThu.playerNames = exGameFri2.playerNames ∧
    (5 : ℤ) ≠ round ((1.2 : ℚ) * ((5 : ℤ) : ℚ))) ∧
    ((candidatesOf hvZero [exGameWedX, exGameThuX] [exPlayerX] 19998 19999 180).map
        (fun c => (c.anchorGame.date, c.visitValue, c.nearbyGames.length,
          jsSetOfList (candPlayerList c))) =
      [(19998, 1, 1, ["X"]), (19999, 1, 1, ["X"])] ∧
    getUTCDay (19998 : ℤ) ≠ ANCHOR_DAY ∧
    getUTCDay (19999 : ℤ) = ANCHOR_DAY ∧
    (generateTrips hvZero [exGameWedX, exGameThuX] [exPlayerX] 19998 19999 180
        []).trips.map (fun c => c.anchorGame.date) = [19998]) := by
  refine ⟨⟨by decide, by decide, by decide, by decide, by decide⟩,
    by decide, by decide, by decide, by decide⟩

/-- **C4 (amended)**.  For two otherwise-identical *non-solo* candidates
(each built by the trip-window branch) over the same eligible athlete set,
one anchored on Thursday and one on another day: the Thursday candidate's
initial `visitValue` equals `round(1.2 ×)` the other's; and whenever the
rounded bonus strictly increases the score (raw score ≥ 3), the greedy
phase — whose rescoring makes the two candidates tie from then on — selects
the Thursday-anchored candidate first. -/
theorem c4_thursday_bonus_amended (hv : Coordinates → Coordinates → ℚ)
    (eligSet : List String) (pm : String → Option RosterPlayer)
    (htv1 htv2 : List (CoordKey × ℤ)) (maxDriveMinutes : ℤ) (a1 a2 : GameEvent)
    (d1 d2 h1 h2 : ℤ) (w1 w2 : List GameEvent) (cs : List TripCandidate)
    (V0 : List String)
    (hd1 : getUTCDay d1 = ANCHOR_DAY) (hd2 : getUTCDay d2 ≠ ANCHOR_DAY)
    (hnames : allPlayerNamesOf eligSet a1 (nearbyGamesOf hv maxDriveMinutes a1 w1) =
      allPlayerNamesOf eligSet a2 (nearbyGamesOf hv maxDriveMinutes a2 w2))
    (hmem1 : windowCandidate hv eligSet pm htv1 maxDriveMinutes a1 d1 h1 w1 ∈ cs)
    (hmem2 : windowCandidate hv eligSet pm htv2 maxDriveMinutes a2 d2 h2 w2 ∈ cs)
    (hcnt1 : cs.countP (fun c => decide (candCore c =
      candCore (windowCandidate hv eligSet pm htv1 maxDriveMinutes a1 d1 h1 w1))) = 1)
    (hcnt2 : cs.countP (fun c => decide (candCore c =
      candCore (windowCandidate hv eligSet pm htv2 maxDriveMinutes a2 d2 h2 w2))) = 1)
    (hanch : candCore (windowCandidate hv eligSet pm htv1 maxDriveMinutes a1 d1 h1 w1) ≠
      candCore (windowCandidate hv eligSet pm htv2 maxDriveMinutes a2 d2 h2 w2))
    (hs : 3 ≤ scoreTripCandidate
      (allPlayerNamesOf eligSet a1 (nearbyGamesOf hv maxDriveMinutes a1 w1)) pm) :
    (windowCandidate hv eligSet pm htv1 maxDriveMinutes a1 d1 h1 w1).visitValue =
      round ((6 / 5 : ℚ) *
        ((windowCandidate hv eligSet pm htv2 maxDriveMinutes a2 d2 h2 w2).visitValue : ℚ)) ∧
    ∀ pre t post, (greedySelect eligSet pm cs V0).1 = pre ++ t :: post →
      candCore t =
        candCore (windowCandidate hv eligSet pm htv2 maxDriveMinutes a2 d2 h2 w2) →
      ∃ u ∈ pre, candCore u =
        candCore (windowCandidate hv eligSet pm htv1 maxDriveMinutes a1 d1 h1 w1) := by
  have hone : (1.0 : ℚ) = 1 := by norm_num
  have hbonus : (1.2 : ℚ) = 6 / 5 := by norm_num
  have hv2 : (windowCandidate hv eligSet pm htv2 maxDriveMinutes a2 d2 h2 w2).visitValue =
      scoreTripCandidate
        (allPlayerNamesOf eligSet a1 (nearbyGamesOf hv maxDriveMinutes a1 w1)) pm := by
    rw [windowCandidate_visitValue, if_neg hd2, hone, mul_one, ← hnames, round_intCast]
  have hv1 : (windowCandidate hv eligSet pm htv1 maxDriveMinutes a1 d1 h1 w1).visitValue =
      round ((6 / 5 : ℚ) * (scoreTripCandidate
        (allPlayerNamesOf eligSet a1 (nearbyGamesOf hv maxDriveMinutes a1 w1)) pm : ℚ)) := by
    rw [windowCandidate_visitValue, if_pos hd1, hbonus, mul_comm]
  constructor
  · rw [hv1, hv2]
  · -- the strict initial-value gap puts the Thursday candidate first in the
    -- initial sort, and stable rescoring keeps it there
    have hlt : (windowCandidate hv eligSet pm htv2 maxDriveMinutes a2 d2 h2 w2).visitValue <
        (windowCandidate hv eligSet pm htv1 maxDriveMinutes a1 d1 h1 w1).visitValue := by
      rw [hv1, hv2]
      set s := scoreTripCandidate
        (allPlayerNamesOf eligSet a1 (nearbyGamesOf hv maxDriveMinutes a1 w1)) pm with hsdef
      have hstep : s + 1 ≤ round ((6 / 5 : ℚ) * (s : ℚ)) := by
        rw [round_eq]
        rw [Int.le_floor]
        push_cast
        have : (3 : ℚ) ≤ (s : ℚ) := by exact_mod_cast hs
        linarith
      omega
    have hvaleq : ∀ (V : List String) (x y : TripCandidate),
        candCore x = candCore (windowCandidate hv eligSet pm htv1 maxDriveMinutes a1 d1 h1 w1) →
        candCore y = candCore (windowCandidate hv eligSet pm htv2 maxDriveMinutes a2 d2 h2 w2) →
        (rescore eligSet pm V x).visitValue = (rescore eligSet pm V y).visitValue := by
      intro V x y hx hy
      have e1 := @rescore_value_eq_of_core eligSet pm V _ _ hx
      have e2 := @rescore_value_eq_of_core eligSet pm V _ _ hy
      have e3 : (rescore eligSet pm V
          (windowCandidate hv eligSet pm htv1 maxDriveMinutes a1 d1 h1 w1)).visitValue =
          (rescore eligSet pm V
            (windowCandidate hv eligSet pm htv2 maxDriveMinutes a2 d2 h2 w2)).visitValue :=
        rescore_value_eq_of_names hnames
      rw [e1, e2, e3]
    have hsorted := List.sorted_insertionSort byVisitValueDesc cs
    have hpair : PairBefore
        (fun c => candCore c =
          candCore (windowCandidate hv eligSet pm htv1 maxDriveMinutes a1 d1 h1 w1))
        (fun c => candCore c =
          candCore (windowCandidate hv eligSet pm htv2 maxDriveMinutes a2 d2 h2 w2))
        (List.insertionSort byVisitValueDesc cs) := by
      refine ⟨_, _, rfl, rfl, ?_⟩
      exact pair_sublist_of_sorted hsorted
        ((List.mem_insertionSort _).mpr hmem1)
        ((List.mem_insertionSort _).mpr hmem2) hlt
    have hc1 : (List.insertionSort byVisitValueDesc cs).countP
        (fun c => decide (candCore c =
          candCore (windowCandidate hv eligSet pm htv1 maxDriveMinutes a1 d1 h1 w1))) = 1 := by
      rw [(List.perm_insertionSort byVisitValueDesc cs).countP_eq]
      exact hcnt1
    have hc2 : (List.insertionSort byVisitValueDesc cs).countP
        (fun c => decide (candCore c =
          candCore (windowCandidate hv eligSet pm htv2 maxDriveMinutes a2 d2 h2 w2))) = 1 := by
      rw [(List.perm_insertionSort byVisitValueDesc cs).countP_eq]
      exact hcnt2
    exact greedyLoop_stable _ _ hanch hvaleq cs.length
      (List.insertionSort byVisitValueDesc cs) V0 hc1 hc2 hpair

/-- Shorthand for the concrete pool of the Thursday-bonus witness run. -/
def exEligSet : List String := eligiblePlayers [exPlayerA]

/-- Shorthand for its player map. -/
def exPm : String → Option RosterPlayer := mkPlayerMap [exPlayerA]

/-- Shorthand for its memoised home-distance table. -/
def exHtv : List (CoordKey × ℤ) :=
  buildHomeToVenue hvZero (eligibleGames [exGameThu, exGameFri] [exPlayerA] 19999 20000)

/-- Shorthand for its candidate pool. -/
def exCands : List TripCandidate :=
  candidatesOf hvZero [exGameThu, exGameFri] [exPlayerA] 19999 20000 180

theorem c4_thursday_bonus_amended_witness :
    (getUTCDay 19999 = ANCHOR_DAY ∧ getUTCDay 20000 ≠ ANCHOR_DAY ∧
      allPlayerNamesOf exEligSet exGameThu (nearbyGamesOf hvZero 180 exGameThu [exGameFri]) =
        allPlayerNamesOf exEligSet exGameFri (nearbyGamesOf hvZero 180 exGameFri [exGameThu]) ∧
      windowCandidate hvZero exEligSet exPm exHtv 180 exGameThu 19999 0 [exGameFri] ∈ exCands ∧
      windowCandidate hvZero exEligSet exPm exHtv 180 exGameFri 20000 0 [exGameThu] ∈ exCands ∧
      exCands.countP (fun c => decide (candCore c =
        candCore (windowCandidate hvZero exEligSet exPm exHtv 180 exGameThu 19999 0
          [exGameFri]))) = 1 ∧
      exCands.countP (fun c => decide (candCore c =
        candCore (windowCandidate hvZero exEligSet exPm exHtv 180 exGameFri 20000 0
          [exGameThu]))) = 1 ∧
      candCore (windowCandidate hvZero exEligSet exPm exHtv 180 exGameThu 19999 0
        [exGameFri]) ≠
        candCore (windowCandidate hvZero exEligSet exPm exHtv 180 exGameFri 20000 0
          [exGameThu]) ∧
      3 ≤ scoreTripCandidate
        (allPlayerNamesOf exEligSet exGameThu
          (nearbyGamesOf hvZero 180 exGameThu [exGameFri])) exPm) ∧
    ((windowCandidate hvZero exEligSet exPm exHtv 180 exGameThu 19999 0
        [exGameFri]).visitValue =
      round ((6 / 5 : ℚ) *
        ((windowCandidate hvZero exEligSet exPm exHtv 180 exGameFri 20000 0
          [exGameThu]).visitValue : ℚ)) ∧
    ∀ pre t post, (greedySelect exEligSet exPm exCands []).1 = pre ++ t :: post →
      candCore t =
        candCore (windowCandidate hvZero exEligSet exPm exHtv 180 exGameFri 20000 0
          [exGameThu]) →
      ∃ u ∈ pre, candCore u =
        candCore (windowCandidate hvZero exEligSet exPm exHtv 180 exGameThu 19999 0
          [exGameFri])) :=
  ⟨⟨by decide, by decide, by decide, by decide, by decide, by decide, by decide,
      by decide, by decide⟩,
    c4_thursday_bonus_amended hvZero exEligSet exPm exHtv exHtv 180 exGameThu exGameFri
      19999 20000 0 0 [exGameFri] [exGameThu] exCands [] (by decide) (by decide)
      (by decide) (by decide) (by decide) (by decide) (by decide) (by decide) (by decide)⟩

theorem exists_with_of_sort_cons {cs : List TripCandidate} {p : String}
    {b : TripCandidate} {t : List TripCandidate}
    (h : List.insertionSort byVisitValueDesc (candidatesWithPlayer cs p) = b :: t) :
    b ∈ cs ∧ p ∈ candPlayerList b := by
  have hb := mem_of_insertionSort_eq_cons h
  have hb2 := List.mem_filter.mp hb
  exact ⟨hb2.1, of_decide_eq_true hb2.2⟩

theorem not_exists_of_sort_nil {cs : List TripCandidate} {p : String}
    (h : List.insertionSort byVisitValueDesc (candidatesWithPlayer cs p) = []) :
    ¬∃ c ∈ cs, p ∈ candPlayerList c := by
  rintro ⟨c, hc, hp⟩
  have h2 := insertionSort_eq_nil_iff.mp h
  have h3 := List.filter_eq_nil_iff.mp h2 c hc
  exact h3 (decide_eq_true hp)

theorem planTrips_eq (hv : Coordinates → Coordinates → ℚ) (games : List GameEvent)
    (players : List RosterPlayer) (startDate endDate maxDriveMinutes : ℤ)
    (priorityPlayers : List String) :
    planTrips hv games players startDate endDate maxDriveMinutes priorityPlayers =
      (planPriority hv games players startDate endDate maxDriveMinutes
        priorityPlayers).2.1 ++
      (planGreedy hv games players startDate endDate maxDriveMinutes
        priorityPlayers).1 := rfl

/-- **C5 counterexample**.  With two priority names supplied but zero
eligible games, the engine returns from the degenerate-input branch before
the priority phase runs: the priority athletes are contained in no candidate
yet no `unreachable` status is reported (`priorityResults` is absent
entirely), falsifying the claim as stated. -/
theorem c5_priority_pair_counterexample :
    (generateTrips hvZero [] [] 20000 20000 180 ["P", "Q"]).priorityResults = none ∧
    (generateTrips hvZero [] [] 20000 20000 180 ["P", "Q"]).trips = [] ∧
    candidatesOf hvZero [] [] 20000 20000 180 = [] := by
  refine ⟨by decide, by decide, by decide⟩

/-- **C5 (amended)**.  Provided at least one eligible game exists (so the run
reaches the selection phase), supplying exactly two priority names behaves as
claimed: a highest-scoring candidate containing both becomes the first trip
with both reported `included`; otherwise each athlete separately gets the
best candidate containing them as its own trip (reported `separate-trip`,
the priority trips heading the output in order), and an athlete contained in
no candidate is reported `unreachable`. -/
theorem c5_priority_pair (hv : Coordinates → Coordinates → ℚ)
    (games : List GameEvent) (players : List RosterPlayer)
    (startDate endDate maxDriveMinutes : ℤ) (p1 p2 : String)
    (hne : eligibleGames games players startDate endDate ≠ []) :
    ((∃ c ∈ candidatesOf hv games players startDate endDate maxDriveMinutes,
        p1 ∈ candPlayerList c ∧ p2 ∈ candPlayerList c) →
      ∃ best rest,
        (generateTrips hv games players startDate endDate maxDriveMinutes
          [p1, p2]).trips = best :: rest ∧
        p1 ∈ candPlayerList best ∧ p2 ∈ candPlayerList best ∧
        (∀ c ∈ candidatesOf hv games players startDate endDate maxDriveMinutes,
          p1 ∈ candPlayerList c → p2 ∈ candPlayerList c →
            c.visitValue ≤ best.visitValue) ∧
        (generateTrips hv games players startDate endDate maxDriveMinutes
          [p1, p2]).priorityResults =
          some [⟨p1, .included, none⟩, ⟨p2, .included, none⟩]) ∧
    ((¬∃ c ∈ candidatesOf hv games players startDate endDate maxDriveMinutes,
        p1 ∈ candPlayerList c ∧ p2 ∈ candPlayerList c) →
      (∃ c ∈ candidatesOf hv games players startDate endDate maxDriveMinutes,
        p1 ∈ candPlayerList c) →
      (∃ c ∈ candidatesOf hv games players startDate endDate maxDriveMinutes,
        p2 ∈ candPlayerList c) →
      ∃ b1 b2 rest,
        (generateTrips hv games players startDate endDate maxDriveMinutes
          [p1, p2]).trips = b1 :: b2 :: rest ∧
        p1 ∈ candPlayerList b1 ∧
        (∀ c ∈ candidatesOf hv games players startDate endDate maxDriveMinutes,
          p1 ∈ candPlayerList c → c.visitValue ≤ b1.visitValue) ∧
        p2 ∈ candPlayerList b2 ∧
        (∀ c ∈ candidatesOf hv games players startDate endDate maxDriveMinutes,
          p2 ∈ candPlayerList c → c.visitValue ≤ b2.visitValue) ∧
        (generateTrips hv games players startDate endDate maxDriveMinutes
          [p1, p2]).priorityResults =
          some [⟨p1, .separateTrip, some (priorityReasonSeparate p1 p2)⟩,
            ⟨p2, .separateTrip, some (priorityReasonSeparate p1 p2)⟩]) ∧
    ((∃ c ∈ candidatesOf hv games players startDate endDate maxDriveMinutes,
        p1 ∈ candPlayerList c) →
      (¬∃ c ∈ candidatesOf hv games players startDate endDate maxDriveMinutes,
        p2 ∈ candPlayerList c) →
      ∃ b1 rest,
        (generateTrips hv games players startDate endDate maxDriveMinutes
          [p1, p2]).trips = b1 :: rest ∧
        p1 ∈ candPlayerList b1 ∧
        (∀ c ∈ candidatesOf hv games players startDate endDate maxDriveMinutes,
          p1 ∈ candPlayerList c → c.visitValue ≤ b1.visitValue) ∧
        (generateTrips hv games players startDate endDate maxDriveMinutes
          [p1, p2]).priorityResults =
          some [⟨p1, .separateTrip, some (priorityReasonSeparate p1 p2)⟩,
            ⟨p2, .unreachable, some (priorityReasonUnreachable p2)⟩]) ∧
    ((¬∃ c ∈ candidatesOf hv games players startDate endDate maxDriveMinutes,
        p1 ∈ candPlayerList c) →
      (∃ c ∈ candidatesOf hv games players startDate endDate maxDriveMinutes,
        p2 ∈ candPlayerList c) →
      ∃ b2 rest,
        (generateTrips hv games players startDate endDate maxDriveMinutes
          [p1, p2]).trips = b2 :: rest ∧
        p2 ∈ candPlayerList b2 ∧
        (∀ c ∈ candidatesOf hv games players startDate endDate maxDriveMinutes,
          p2 ∈ candPlayerList c → c.visitValue ≤ b2.visitValue) ∧
        (generateTrips hv games players startDate endDate maxDriveMinutes
          [p1, p2]).priorityResults =
          some [⟨p1, .unreachable, some (priorityReasonUnreachable p1)⟩,
            ⟨p2, .separateTrip, some (priorityReasonSeparate p1 p2)⟩]) ∧
    ((¬∃ c ∈ candidatesOf hv games players startDate endDate maxDriveMinutes,
        p1 ∈ candPlayerList c) →
      (¬∃ c ∈ candidatesOf hv games players startDate endDate maxDriveMinutes,
        p2 ∈ candPlayerList c) →
      (generateTrips hv games players startDate endDate maxDriveMinutes
        [p1, p2]).priorityResults =
        some [⟨p1, .unreachable, some (priorityReasonUnreachable p1)⟩,
          ⟨p2, .unreachable, some (priorityReasonUnreachable p2)⟩]) := by
  have hplan : generateTrips hv games players startDate endDate maxDriveMinutes
      [p1, p2] =
      generateTripsCore hv games players startDate endDate maxDriveMinutes [p1, p2] := by
    unfold generateTrips
    rw [if_neg]
    simp [List.isEmpty_iff, hne]
  rw [hplan, generateTripsCore_trips, generateTripsCore_priorityResults, planTrips_eq]
  cases hB : List.insertionSort byVisitValueDesc
      ((candidatesOf hv games players startDate endDate maxDriveMinutes).filter
        fun c => decide (p1 ∈ candPlayerList c) && decide (p2 ∈ candPlayerList c)) with
  | cons best tail =>
    have hEB : ∃ c ∈ candidatesOf hv games players startDate endDate maxDriveMinutes,
        p1 ∈ candPlayerList c ∧ p2 ∈ candPlayerList c := by
      have hb := mem_of_insertionSort_eq_cons hB
      have hb2 := List.mem_filter.mp hb
      simp only [Bool.and_eq_true, decide_eq_true_eq] at hb2
      exact ⟨best, hb2.1, hb2.2⟩
    have hPP : planPriority hv games players startDate endDate maxDriveMinutes
        [p1, p2] =
        ([⟨p1, .included, none⟩, ⟨p2, .included, none⟩], [best],
          markVisited (eligiblePlayers players) [] best) :=
      priorityPhase_pair_both hB
    rw [hPP]
    have hbmem := List.mem_filter.mp (mem_of_insertionSort_eq_cons hB)
    simp only [Bool.and_eq_true, decide_eq_true_eq] at hbmem
    refine ⟨?_, ?_, ?_, ?_, ?_⟩
    · intro _
      refine ⟨best, _, rfl, hbmem.2.1, hbmem.2.2, ?_, rfl⟩
      intro c hc h1 h2
      exact insertionSort_head_max hB
        (List.mem_filter.mpr ⟨hc, by simp [h1, h2]⟩)
    · intro hnEB
      exact absurd hEB hnEB
    · intro hE1 hnE2
      exact absurd ⟨best, hbmem.1, hbmem.2.2⟩ hnE2
    · intro hnE1 _
      exact absurd ⟨best, hbmem.1, hbmem.2.1⟩ hnE1
    · intro hnE1 _
      exact absurd ⟨best, hbmem.1, hbmem.2.1⟩ hnE1
  | nil =>
    have hnEB : ¬∃ c ∈ candidatesOf hv games players startDate endDate maxDriveMinutes,
        p1 ∈ candPlayerList c ∧ p2 ∈ candPlayerList c := by
      rintro ⟨c, hc, h1, h2⟩
      have h3 := List.filter_eq_nil_iff.mp (insertionSort_eq_nil_iff.mp hB) c hc
      simp [h1, h2] at h3
    cases hs1 : List.insertionSort byVisitValueDesc
        (candidatesWithPlayer
          (candidatesOf hv games players startDate endDate maxDriveMinutes) p1) with
    | cons b1 t1 =>
      have hE1 := exists_with_of_sort_cons hs1
      cases hs2 : List.insertionSort byVisitValueDesc
          (candidatesWithPlayer
            (candidatesOf hv games players startDate endDate maxDriveMinutes) p2) with
      | cons b2 t2 =>
        have hE2 := exists_with_of_sort_cons hs2
        have hPP : planPriority hv games players startDate endDate maxDriveMinutes
            [p1, p2] =
            ([⟨p1, .separateTrip, some (priorityReasonSeparate p1 p2)⟩,
              ⟨p2, .separateTrip, some (priorityReasonSeparate p1 p2)⟩], [b1, b2],
              markVisited (eligiblePlayers players)
                (markVisited (eligiblePlayers players) [] b1) b2) :=
          priorityPhase_pair_sep_both hB hs1 hs2
        rw [hPP]
        refine ⟨?_, ?_, ?_, ?_, ?_⟩
        · intro hEB
          exact absurd hEB hnEB
        · intro _ _ _
          refine ⟨b1, b2, _, rfl, hE1.2, ?_, hE2.2, ?_, rfl⟩
          · intro c hc h1
            exact insertionSort_head_max hs1
              (List.mem_filter.mpr ⟨hc, decide_eq_true h1⟩)
          · intro c hc h2
            exact insertionSort_head_max hs2
              (List.mem_filter.mpr ⟨hc, decide_eq_true h2⟩)
        · intro _ hnE2
          exact absurd ⟨b2, hE2.1, hE2.2⟩ hnE2
        · intro hnE1 _
          exact absurd ⟨b1, hE1.1, hE1.2⟩ hnE1
        · intro hnE1 _
          exact absurd ⟨b1, hE1.1, hE1.2⟩ hnE1
      | nil =>
        have hnE2 := not_exists_of_sort_nil hs2
        have hPP : planPriority hv games players startDate endDate maxDriveMinutes
            [p1, p2] =
            ([⟨p1, .separateTrip, some (priorityReasonSeparate p1 p2)⟩,
              ⟨p2, .unreachable, some (priorityReasonUnreachable p2)⟩], [b1],
              markVisited (eligiblePlayers players) [] b1) :=
          priorityPhase_pair_sep_one hB hs1 hs2
        rw [hPP]
        refine ⟨?_, ?_, ?_, ?_, ?_⟩
        · intro hEB
          exact absurd hEB hnEB
        · intro _ _ hE2
          exact absurd hE2 hnE2
        · intro _ _
          refine ⟨b1, _, rfl, hE1.2, ?_, rfl⟩
          intro c hc h1
          exact insertionSort_head_max hs1
            (List.mem_filter.mpr ⟨hc, decide_eq_true h1⟩)
        · intro hnE1 _
          exact absurd ⟨b1, hE1.1, hE1.2⟩ hnE1
        · intro hnE1 _
          exact absurd ⟨b1, hE1.1, hE1.2⟩ hnE1
    | nil =>
      have hnE1 := not_exists_of_sort_nil hs1
      cases hs2 : List.insertionSort byVisitValueDesc
          (candidatesWithPlayer
            (candidatesOf hv games players startDate endDate maxDriveMinutes) p2) with
      | cons b2 t2 =>
        have hE2 := exists_with_of_sort_cons hs2
        have hPP : planPriority hv games players startDate endDate maxDriveMinutes
            [p1, p2] =
            ([⟨p1, .unreachable, some (priorityReasonUnreachable p1)⟩,
              ⟨p2, .separateTrip, some (priorityReasonSeparate p1 p2)⟩], [b2],
              markVisited (eligiblePlayers players) [] b2) :=
          priorityPhase_pair_sep_two hB hs1 hs2
        rw [hPP]
        refine ⟨?_, ?_, ?_, ?_, ?_⟩
        · intro hEB
          exact absurd hEB hnEB
        · intro _ hE1
          exact absurd hE1 hnE1
        · intro hE1 _
          exact absurd hE1 hnE1
        · intro _ _
          refine ⟨b2, _, rfl, hE2.2, ?_, rfl⟩
          intro c hc h2
          exact insertionSort_head_max hs2
            (List.mem_filter.mpr ⟨hc, decide_eq_true h2⟩)
        · intro _ hE2b
          exact absurd ⟨b2, hE2.1, hE2.2⟩ hE2b
      | nil =>
        have hnE2 := not_exists_of_sort_nil hs2
        have hPP : planPriority hv games players startDate endDate maxDriveMinutes
            [p1, p2] =
            ([⟨p1, .unreachable, some (priorityReasonUnreachable p1)⟩,
              ⟨p2, .unreachable, some (priorityReasonUnreachable p2)⟩], [], []) :=
          priorityPhase_pair_none hB hs1 hs2
        rw [hPP]
        refine ⟨?_, ?_, ?_, ?_, ?_⟩
        · intro hEB
          exact absurd hEB hnEB
        · intro _ hE1
          exact absurd hE1 hnE1
        · intro hE1 _
          exact absurd hE1 hnE1
        · intro _ hE2
          exact absurd hE2 hnE2
        · intro _ _
          rfl

/-- A tier-1 priority athlete. -/
def exPlayerP : RosterPlayer := ⟨"P", 1, 1⟩

/-- A tier-2 priority athlete. -/
def exPlayerQ : RosterPlayer := ⟨"Q", 2, 1⟩

/-- P's game: Thursday 2024-10-03. -/
def exGameP : GameEvent :=
  ⟨"gp", 19999, ⟨"VP", ⟨3, 3⟩⟩, true, .mlbApi, ["P"], none⟩

/-- Q's game: Friday 2024-10-04, within P's trip window. -/
def exGameQ : GameEvent :=
  ⟨"gq", 20000, ⟨"VQ", ⟨4, 4⟩⟩, true, .mlbApi, ["Q"], none⟩

theorem c5_priority_pair_witness :
    eligibleGames [exGameP, exGameQ] [exPlayerP, exPlayerQ] 19999 20000 ≠ [] ∧
    ((∃ c ∈ candidatesOf hvZero [exGameP, exGameQ] [exPlayerP, exPlayerQ] 19999 20000 180,
        "P" ∈ candPlayerList c ∧ "Q" ∈ candPlayerList c) →
      ∃ best rest,
        (generateTrips hvZero [exGameP, exGameQ] [exPlayerP, exPlayerQ] 19999 20000 180
          ["P", "Q"]).trips = best :: rest ∧
        "P" ∈ candPlayerList best ∧ "Q" ∈ candPlayerList best ∧
        (∀ c ∈ candidatesOf hvZero [exGameP, exGameQ] [exPlayerP, exPlayerQ] 19999
            20000 180,
          "P" ∈ candPlayerList c → "Q" ∈ candPlayerList c →
            c.visitValue ≤ best.visitValue) ∧
        (generateTrips hvZero [exGameP, exGameQ] [exPlayerP, exPlayerQ] 19999 20000 180
          ["P", "Q"]).priorityResults =
          some [⟨"P", .included, none⟩, ⟨"Q", .included, none⟩]) :=
  ⟨by decide,
    (c5_priority_pair hvZero [exGameP, exGameQ] [exPlayerP, exPlayerQ] 19999 20000 180
      "P" "Q" (by decide)).1⟩

/-! ## Claim C8 -/

/-- **C8**.  Whenever zero eligible games remain after filtering, the run
returns the well-formed empty plan whose `unvisitablePlayers` are exactly the
athletes with `visitsRemaining > 0`; in particular an empty roster yields the
all-empty plan with `coveragePercent = 0`. -/
theorem c8_degenerate_input (hv : Coordinates → Coordinates → ℚ)
    (games : List GameEvent) (players : List RosterPlayer)
    (startDate endDate maxDriveMinutes : ℤ) (priorityPlayers : List String)
    (h : eligibleGames games players startDate endDate = []) :
    generateTrips hv games players startDate endDate maxDriveMinutes priorityPlayers =
      ⟨[], [], eligiblePlayers players, 0, 0, 0, none⟩ ∧
    generateTrips hv games [] startDate endDate maxDriveMinutes priorityPlayers =
      ⟨[], [], [], 0, 0, 0, none⟩ := by
  have hP : eligiblePlayers ([] : List RosterPlayer) = [] := rfl
  constructor
  · unfold generateTrips
    rw [if_pos]
    rw [h]
    rfl
  · have hG : eligibleGames games [] startDate endDate = [] := by
      unfold eligibleGames
      rw [List.filter_eq_nil_iff]
      intro g _
      simp [hP]
    unfold generateTrips
    rw [if_pos]
    · rw [hP]
    · rw [hG]
      rfl

theorem c8_degenerate_input_witness :
    eligibleGames [] [] 0 0 = [] ∧
    (generateTrips hvZero [] [] 0 0 180 [] = ⟨[], [], eligiblePlayers [], 0, 0, 0, none⟩ ∧
      generateTrips hvZero [] [] 0 0 180 [] = ⟨[], [], [], 0, 0, 0, none⟩) :=
  ⟨by decide, c8_degenerate_input hvZero [] [] 0 0 180 [] (by decide)⟩

/-! ## Claim C9 -/

/-- Modelled from the spec's wording: "rounded to one decimal". -/
def roundToOneDecimal (x : ℚ) : ℚ :=
  (round (x * 10) : ℚ) / 10

/-- Distance function for the beyond-radius scenario: every pair of
coordinates is 2000 km apart. -/
def hvTwoThousand : Coordinates → Coordinates → ℚ := fun _ _ => 2000

/-- A tier-1 athlete with one visit remaining. -/
def exPlayerBea : RosterPlayer := ⟨"Bea", 1, 1⟩

/-- Bea's only event, at a venue 2000 km from home under `hvTwoThousand`. -/
def exGameBea : GameEvent :=
  ⟨"gb", 20000, ⟨"Far", ⟨10, 10⟩⟩, true, .ncaaLookup, ["Bea"], none⟩

/-- **C9**.  `estimateFlightHours d` is `d/800` plus a 3-hour overhead,
rounded to one decimal place; consequently an athlete whose only event is
2000 km from home (radius 180 drive-minutes) appears in `flyInVisits` with
`estimatedTravelHours = 5.5` and not in `unvisitablePlayers`. -/
theorem c9_flight_hours :
    (∀ d : ℚ, estimateFlightHours d = roundToOneDecimal (d / 800 + 3)) ∧
    (generateTrips hvTwoThousand [exGameBea] [exPlayerBea] 20000 20000 180
        []).flyInVisits =
      [⟨["Bea"], ⟨"Far", ⟨10, 10⟩⟩, [20000], 2000, 5.5, .ncaaLookup, true, none⟩] ∧
    (generateTrips hvTwoThousand [exGameBea] [exPlayerBea] 20000 20000 180
      []).unvisitablePlayers = [] := by
  refine ⟨fun d => rfl, ?_, ?_⟩
  · decide
  · decide

end TripEngine
